import Mathlib

/-!
# dv: asset resolution and container lifecycle

A shallow embedding of `internal/assets/dockerfile.go` and
`internal/cli/shared.go`.

Conventions of the embedding:

* a Go `string` is a Lean `String`; a Go `[]byte` is a `List Char`, one
  character per byte. `[]byte(s)` is `s.data` and `string(b)` is `String.mk b`.
  The code inspects only ASCII bytes (blank, tab, CR, LF and the path
  separator), so nothing depends on the alphabet being bytes;
* the operating system is explicit state: an environment, a filesystem that
  maps path names to nodes, and a container runtime. Every function that
  performs system calls takes the state and returns the new state together
  with the list of mutations it performed;
* Go `int` is `Int` with increments wrapped to 64 bits.
-/

namespace Dv

/-! ## Go values -/

/-- Error numbers of the system calls issued by the resolver. -/
inductive Errno
  | ENOENT
  | EISDIR
  | ENOTDIR
  | EACCES
  | ENOSPC
  deriving DecidableEq, Repr

/-- Go `error` values: the result of `fmt.Errorf` (a message), or a
`*fs.PathError` returned by package `os`. -/
inductive GoError
  | errorf (msg : String)
  | pathError (op : String) (path : String) (errno : Errno)
  deriving DecidableEq, Repr

/-- The test `errors.Is(err, fs.ErrNotExist)`. -/
def errorsIsNotExist : GoError → Bool
  | .pathError _ _ .ENOENT => true
  | _ => false

/-! ## Package `path/filepath` (Unix) -/

/-- Splits a path at every separator, keeping empty components. -/
def splitSlash : List Char → List (List Char)
  | [] => [[]]
  | c :: cs =>
    if c = '/' then [] :: splitSlash cs
    else
      match splitSlash cs with
      | [] => [[c]]
      | h :: t => (c :: h) :: t

/-- Joins components with the separator. -/
def joinSlash : List (List Char) → List Char
  | [] => []
  | [c] => c
  | c :: d :: rest => c ++ '/' :: joinSlash (d :: rest)

/-- One step of `filepath.Clean` on the stack of components kept so far: a
`..` removes the component before it, is dropped at the root of a rooted path
and is kept at the front of a relative path. -/
def cleanStep (rooted : Bool) (st : List (List Char)) (c : List Char) : List (List Char) :=
  if c = ['.', '.'] then
    match st.getLast? with
    | some top => if top = ['.', '.'] then st ++ [c] else st.dropLast
    | none => if rooted then st else st ++ [c]
  else st ++ [c]

/-- The components of a path that `filepath.Clean` looks at: empty components
(repeated separators) and `.` are dropped. -/
def pathComps (cs : List Char) : List (List Char) :=
  (splitSlash cs).filter (fun c => decide (c ≠ []) && decide (c ≠ ['.']))

/-- Whether the path starts with the separator. -/
def isRooted (cs : List Char) : Bool :=
  match cs with
  | c :: _ => decide (c = '/')
  | [] => false

/-- The cleaned stack of components of a path. -/
def cleanStack (cs : List Char) : List (List Char) :=
  (pathComps cs).foldl (cleanStep (isRooted cs)) []

/-- Renders a rooted flag and a stack of components as a path. -/
def renderPath (rooted : Bool) (st : List (List Char)) : List Char :=
  (if rooted then ['/'] else []) ++ joinSlash st

/-- The function `filepath.Clean`: the shortest equivalent path name. -/
def filepathClean (path : String) : String :=
  let out := renderPath (isRooted path.data) (cleanStack path.data)
  if out = [] then "." else String.mk out

/-- The function `filepath.Join` for two elements: empty elements are ignored
and the result is cleaned. -/
def filepathJoin (a b : String) : String :=
  if a ≠ "" then filepathClean (a ++ "/" ++ b)
  else if b ≠ "" then filepathClean b
  else ""

/-- The part of a path up to and including its last separator. -/
def throughLastSlash (cs : List Char) : List Char :=
  (cs.reverse.dropWhile (fun c => decide (c ≠ '/'))).reverse

/-- The function `filepath.Dir`: all but the last element of the path, cleaned. -/
def filepathDir (path : String) : String :=
  filepathClean (String.mk (throughLastSlash path.data))

/-- A single path component that `filepath.Clean` keeps as it is. -/
def plainName (n : List Char) : Prop :=
  '/' ∉ n ∧ n ≠ [] ∧ n ≠ ['.'] ∧ n ≠ ['.', '.']

instance plainNameDecidable (n : List Char) : Decidable (plainName n) := by
  unfold plainName; infer_instance

/-- A component as `filepath.Clean` keeps them: non-empty, free of the
separator and different from `.`. -/
def keptComp (x : List Char) : Prop :=
  '/' ∉ x ∧ x ≠ [] ∧ x ≠ ['.']

/-- The text that `joinSlash` puts before the last component. -/
def slashLead (st : List (List Char)) : List Char :=
  if st = [] then [] else joinSlash st ++ ['/']

/-- What `filepath.Join` puts before a plain file name. -/
def joinLead (d : String) : List Char :=
  if d = "" then []
  else (if isRooted d.data then ['/'] else []) ++ slashLead (cleanStack d.data)

/-! ## The filesystem -/

/-- A filesystem node: a directory, or a regular file with its content and
whether the process may read and write it. -/
inductive Node
  | dir
  | file (content : List Char) (canRead : Bool) (canWrite : Bool)
  deriving DecidableEq, Repr

/-- A filesystem state: the node found at each path name, whether the process
may create a new entry at a path name (its parent is writable), and how many
bytes a write to a path name gets through before it fails (`none`: the write
goes through). Path names are the keys as they are passed to the system
calls, and distinct path names denote distinct nodes (no links). -/
structure FS where
  node : String → Option Node
  canCreate : String → Bool
  writeLimit : String → Option Nat

/-- The filesystem with the node at `p` replaced. -/
def FS.set (fs : FS) (p : String) (n : Node) : FS :=
  ⟨fun q => if q = p then some n else fs.node q, fs.canCreate, fs.writeLimit⟩

/-- A system call that changed the filesystem: `mkdir path` is a call of
`os.MkdirAll(path)` that created one directory or more (the path or missing
ancestors of it); `write path data` is a call of `os.WriteFile` on `path`
that opened the file and left it holding `data`. -/
inductive Effect
  | mkdir (path : String)
  | write (path : String) (data : List Char)
  deriving DecidableEq, Repr

/-- The part of `fs.FileInfo` the code looks at. -/
structure FileInfo where
  isDir : Bool
  deriving DecidableEq, Repr

/-- The call `os.Stat`. -/
def osStat (fs : FS) (path : String) : Except GoError FileInfo :=
  match fs.node path with
  | none => .error (.pathError "stat" path .ENOENT)
  | some .dir => .ok ⟨true⟩
  | some (.file _ _ _) => .ok ⟨false⟩

/-- The parent that `os.MkdirAll` recurses into: the path without its trailing
separators and without its last element, when more than the root is left. -/
def mkdirParent (path : List Char) : Option (List Char) :=
  let upto := (path.reverse.dropWhile (fun c => decide (c = '/'))).dropWhile
    (fun c => decide (c ≠ '/'))
  if upto.length > 1 then some (upto.drop 1).reverse else none

/-- The recursion of `os.MkdirAll`: an existing directory ends it with
success and an existing file with an error naming that path; otherwise the
parent is made first, and then the directory itself, which fails where no
entry can be created. The first argument bounds the depth of the recursion
(each parent is shorter than its path). The results are the error, the
filesystem afterwards and whether a directory was created. -/
def mkdirAllRec : Nat → FS → List Char → Option GoError × FS × Bool
  | 0, fs, _ => (none, fs, false)
  | depth + 1, fs, path =>
    match fs.node (String.mk path) with
    | some .dir => (none, fs, false)
    | some (.file _ _ _) => (some (.pathError "mkdir" (String.mk path) .ENOTDIR), fs, false)
    | none =>
      let up : Option GoError × FS × Bool :=
        match mkdirParent path with
        | some parent => mkdirAllRec depth fs parent
        | none => (none, fs, false)
      match up with
      | (some err, fs1, made) => (some err, fs1, made)
      | (none, fs1, made) =>
        if fs1.canCreate (String.mk path) then (none, fs1.set (String.mk path) .dir, true)
        else (some (.pathError "mkdir" (String.mk path) .EACCES), fs1, made)

/-- The call `os.MkdirAll`: nothing to do for an existing directory; an error
for the empty path; otherwise every missing ancestor is created, outermost
first, and then the path itself. An error names the path it arose on, and the
directories created before it stay. -/
def osMkdirAll (fs : FS) (path : String) : Option GoError × FS × List Effect :=
  if path = "" then (some (.pathError "mkdir" path .ENOENT), fs, [])
  else
    match mkdirAllRec (path.data.length + 1) fs path.data with
    | (err, fs1, made) => (err, fs1, if made then [.mkdir path] else [])

/-- The call `os.ReadFile`. -/
def osReadFile (fs : FS) (path : String) : Except GoError (List Char) :=
  match fs.node path with
  | none => .error (.pathError "open" path .ENOENT)
  | some .dir => .error (.pathError "read" path .EISDIR)
  | some (.file content canRead _) =>
    if canRead then .ok content else .error (.pathError "open" path .EACCES)

/-- The call `os.WriteFile` with mode 0o644. The open creates the file
(readable and writable by its owner) or truncates an existing writable file,
whose mode is kept; when it fails nothing changes. The write that follows
either goes through, or fails after the bytes that the filesystem accepted,
which are then what the file holds. -/
def osWriteFile (fs : FS) (path : String) (data : List Char) : Option GoError × FS × List Effect :=
  let opened : Except GoError Bool :=
    match fs.node path with
    | none => if fs.canCreate path then .ok true else .error (.pathError "open" path .EACCES)
    | some .dir => .error (.pathError "open" path .EISDIR)
    | some (.file _ canRead canWrite) =>
      if canWrite then .ok canRead else .error (.pathError "open" path .EACCES)
  match opened with
  | .error err => (some err, fs, [])
  | .ok canRead =>
    let accepted : Nat :=
      match fs.writeLimit path with
      | some k => k
      | none => data.length
    if accepted < data.length then
      (some (.pathError "write" path .ENOSPC),
        fs.set path (.file (data.take accepted) canRead true), [.write path (data.take accepted)])
    else (none, fs.set path (.file data canRead true), [.write path data])

/-! ## `internal/assets/dockerfile.go` -/

/-- The blank bytes of `trimSpaceBytes`. -/
def isSpaceByte (c : Char) : Bool :=
  c == ' ' || c == '\n' || c == '\r' || c == '\t'

/-- First loop of `trimSpaceBytes`: `start` advances while `start < end` and
the byte at `start` is blank. The first argument is `end - start`. -/
def trimLoopStart (b : List Char) : Nat → Nat → Nat
  | 0, start => start
  | n + 1, start => if isSpaceByte (b.getD start ' ') then trimLoopStart b n (start + 1) else start

/-- Second loop of `trimSpaceBytes`: `end` retreats while `end > start` and
the byte at `end - 1` is blank. The first argument is `end - start`; the
result is the final `end`. -/
def trimLoopEnd (b : List Char) (start : Nat) : Nat → Nat
  | 0 => start
  | n + 1 => if isSpaceByte (b.getD (start + n) ' ') then trimLoopEnd b start n else start + n + 1

/-- The function `trimSpaceBytes`: the slice `b[start:end]` after both loops. -/
def trimSpaceBytes (b : List Char) : List Char :=
  let start := trimLoopStart b b.length 0
  let end_ := trimLoopEnd b start (b.length - start)
  (b.drop start).take (end_ - start)

/-- The environment variable consulted for a file name (lines 66 to 69). -/
def envVarName (fileName : String) : String :=
  if fileName = "Dockerfile.theme" then "DV_DOCKERFILE_THEME" else "DV_DOCKERFILE"

/-- The four results of `resolveDockerfileInternal`. -/
structure Resolved where
  dockerfilePath : String
  contextDir : String
  usedOverride : Bool
  err : Option GoError
  deriving DecidableEq, Repr

/-- A call of the resolver: its results, the filesystem afterwards and the
mutations performed, in order. -/
structure Outcome where
  ret : Resolved
  fs : FS
  effects : List Effect

/-- The bytes written to the sidecar, `[]byte(embeddedSHA+"\n")`. -/
def sidecarBytes (embeddedSHA : String) : List Char :=
  (embeddedSHA ++ "\n").data

/-- Lines 84 to 114 of `resolveDockerfileInternal`: the fallback to the
embedded default, rewritten when the digest sidecar is absent or stale. -/
def materializeEmbedded (fs : FS) (configDir fileName : String) (embeddedContent : List Char)
    (embeddedSHA : String) : Outcome :=
  match osMkdirAll fs configDir with
  | (some err, fs1, eff1) => ⟨⟨"", "", false, some err⟩, fs1, eff1⟩
  | (none, fs1, eff1) =>
    let targetPath := filepathJoin configDir fileName
    let shaPath := filepathJoin configDir (fileName ++ ".sha256")
    let needWrite : Except GoError Bool :=
      match osReadFile fs1 shaPath with
      | .error err => if errorsIsNotExist err then .ok true else .error err
      | .ok b => .ok (decide (String.mk (trimSpaceBytes b) ≠ embeddedSHA))
    match needWrite with
    | .error err => ⟨⟨"", "", false, some err⟩, fs1, eff1⟩
    | .ok false => ⟨⟨targetPath, configDir, false, none⟩, fs1, eff1⟩
    | .ok true =>
      match osWriteFile fs1 targetPath embeddedContent with
      | (some err, fs2, eff2) => ⟨⟨"", "", false, some err⟩, fs2, eff1 ++ eff2⟩
      | (none, fs2, eff2) =>
        match osWriteFile fs2 shaPath (sidecarBytes embeddedSHA) with
        | (some err, fs3, eff3) => ⟨⟨"", "", false, some err⟩, fs3, eff1 ++ eff2 ++ eff3⟩
        | (none, fs3, eff3) => ⟨⟨targetPath, configDir, false, none⟩, fs3, eff1 ++ eff2 ++ eff3⟩

/-- The function `resolveDockerfileInternal`: lines 64 to 82, the environment
override and the local override, then the fallback above. -/
def resolveDockerfileInternal (env : String → Option String) (fs : FS)
    (configDir fileName : String) (embeddedContent : List Char) (embeddedSHA : String) : Outcome :=
  let envVar := envVarName fileName
  let envHit : Option String :=
    match env envVar with
    | some envPath => if envPath ≠ "" then some envPath else none
    | none => none
  match envHit with
  | some envPath =>
    match osStat fs envPath with
    | .ok info =>
      if !info.isDir then ⟨⟨envPath, filepathDir envPath, true, none⟩, fs, []⟩
      else ⟨⟨"", "", false, some (.errorf (envVar ++ " path does not exist: " ++ envPath))⟩, fs, []⟩
    | .error _ =>
      ⟨⟨"", "", false, some (.errorf (envVar ++ " path does not exist: " ++ envPath))⟩, fs, []⟩
  | none =>
    let localOverride := filepathJoin configDir (fileName ++ ".local")
    let localHit : Bool :=
      match osStat fs localOverride with
      | .ok info => !info.isDir
      | .error _ => false
    if localHit then ⟨⟨localOverride, configDir, true, none⟩, fs, []⟩
    else materializeEmbedded fs configDir fileName embeddedContent embeddedSHA

/-- The content of the regular file at a path, if there is one. -/
def fileContent (fs : FS) (p : String) : Option (List Char) :=
  match fs.node p with
  | some (.file content _ _) => some content
  | _ => none

/-- The two asset kinds resolved by `ResolveDockerfile` and
`ResolveDockerfileTheme`. -/
inductive AssetKind
  | dockerfile
  | theme
  deriving DecidableEq, Repr

/-- The file name passed to `resolveDockerfileInternal` for an asset kind. -/
def AssetKind.fileName : AssetKind → String
  | .dockerfile => "Dockerfile"
  | .theme => "Dockerfile.theme"

/-- The environment variable documented for an asset kind. -/
def AssetKind.envVar : AssetKind → String
  | .dockerfile => "DV_DOCKERFILE"
  | .theme => "DV_DOCKERFILE_THEME"

/-- The function `ResolveDockerfile`, for an embedded blob and the digest
function of `EmbeddedDockerfileSHA256` (SHA-256 in hex, from the standard
library). -/
def ResolveDockerfile (env : String → Option String) (fs : FS) (embeddedDockerfile : List Char)
    (sha256Hex : List Char → String) (configDir : String) : Outcome :=
  resolveDockerfileInternal env fs configDir "Dockerfile" embeddedDockerfile
    (sha256Hex embeddedDockerfile)

/-- The function `ResolveDockerfileTheme`. -/
def ResolveDockerfileTheme (env : String → Option String) (fs : FS)
    (embeddedDockerfileTheme : List Char) (sha256Hex : List Char → String)
    (configDir : String) : Outcome :=
  resolveDockerfileInternal env fs configDir "Dockerfile.theme" embeddedDockerfileTheme
    (sha256Hex embeddedDockerfileTheme)

/-- The characters produced by `hex.EncodeToString`. -/
def isHexDigit (c : Char) : Bool :=
  "0123456789abcdef".data.contains c

/-- Whether the sidecar found in a filesystem calls for a rewrite: it is
absent, or it is a file whose trimmed content is not the digest. -/
def sidecarStale (fs : FS) (shaPath : String) (embeddedSHA : String) : Prop :=
  fs.node shaPath = none
    ∨ ∃ b r w, fs.node shaPath = some (Node.file b r w)
        ∧ String.mk (trimSpaceBytes b) ≠ embeddedSHA

/-- A node after `os.MkdirAll` is the node before, or a directory where there
was nothing. -/
def keptOrDir (before after : FS) (q : String) : Prop :=
  after.node q = before.node q ∨ (before.node q = none ∧ after.node q = some Node.dir)

/-- Lines 105 to 114 of `resolveDockerfileInternal` on their own, once a write
is needed: the two writes after the directory step, which left the filesystem
`fs1` and the effects `eff1`. -/
def writeBoth (fs1 : FS) (eff1 : List Effect) (configDir fileName : String)
    (embeddedContent : List Char) (embeddedSHA : String) : Outcome :=
  match osWriteFile fs1 (filepathJoin configDir fileName) embeddedContent with
  | (some err, fs2, eff2) => ⟨⟨"", "", false, some err⟩, fs2, eff1 ++ eff2⟩
  | (none, fs2, eff2) =>
    match osWriteFile fs2 (filepathJoin configDir (fileName ++ ".sha256"))
        (sidecarBytes embeddedSHA) with
    | (some err, fs3, eff3) => ⟨⟨"", "", false, some err⟩, fs3, eff1 ++ eff2 ++ eff3⟩
    | (none, fs3, eff3) =>
      ⟨⟨filepathJoin configDir fileName, configDir, false, none⟩, fs3, eff1 ++ eff2 ++ eff3⟩

/-- A filesystem on which the disk fills up: `/cfg` holds a stale sidecar, and
a write to the Dockerfile gets five bytes through. -/
def fsDiskFull : FS :=
  ⟨fun p =>
    if p = "/cfg" then some Node.dir
    else if p = "/cfg/Dockerfile" then some (Node.file "FROM old\n".data true true)
    else if p = "/cfg/Dockerfile.sha256" then some (Node.file "0f1e2d\n".data true true)
    else none, fun _ => true,
    fun p => if p = "/cfg/Dockerfile" then some 5 else none⟩

/-! ## `internal/cli/shared.go` -/

/-- A Go `map[string]string` read through its lookup. -/
abbrev StringMap := String → Option String

/-- The index expression `m[k]` of a Go map: the zero value for a missing key. -/
def StringMap.index (m : StringMap) (k : String) : String :=
  (m k).getD ""

/-- Modelled from the spec: the type `config.ImageConfig` of package
`dv/internal/config`, whose declaration is not among the embedded sources;
these are the fields read by `shared.go` (section 3, Image Config). -/
structure ImageConfig where
  Tag : String
  Workdir : String
  deriving DecidableEq, Repr

/-- Modelled from the spec: the type `config.Config` of package
`dv/internal/config`, whose declaration is not among the embedded sources;
these are the fields read by `shared.go`. -/
structure Config where
  SelectedAgent : String
  DefaultContainer : String
  SelectedImage : String
  Images : String → Option ImageConfig
  ContainerImages : StringMap
  HostStartingPort : Int
  ContainerPort : Int

/-- The function `currentAgentName`. -/
def currentAgentName (cfg : Config) : String :=
  let name := cfg.SelectedAgent
  if name = "" then cfg.DefaultContainer else name

/-- The function `resolveImage`: the name, the image configuration and the
error. -/
def resolveImage (cfg : Config) (override : String) : String × ImageConfig × Option GoError :=
  let name := if override = "" then cfg.SelectedImage else override
  match cfg.Images name with
  | none => ("", ⟨"", ""⟩, some (.errorf ("unknown image \x27" ++ name ++ "\x27")))
  | some img => (name, img, none)

/-- The function `strings.SplitN(s, sep, n)` for a one-byte separator and
`n ≥ 0`: at most `n` pieces, the last one unsplit. -/
def splitN (sep : Char) : Nat → List Char → List (List Char)
  | 0, _ => []
  | 1, s => [s]
  | n + 2, s =>
    match s.span (fun c => decide (c ≠ sep)) with
    | (a, []) => [a]
    | (a, _ :: rest) => a :: splitN sep (n + 1) rest

/-- The function `strings.Split(s, sep)` for a one-byte separator. -/
def splitAll (sep : Char) : List Char → List (List Char)
  | [] => [[]]
  | c :: cs =>
    if c = sep then [] :: splitAll sep cs
    else
      match splitAll sep cs with
      | [] => [[c]]
      | h :: t => (c :: h) :: t

/-- The functions that `completeAgentNames` calls and that are taken as
parameters: `strings.TrimSpace` and `strings.ToLower` of the standard library,
and `parseLabels` of package `cli`, whose body is not among the embedded
sources. -/
structure TextOps where
  trimSpace : String → String
  toLower : String → String
  parseLabels : String → StringMap

/-- Lines 91 to 104 of `completeAgentNames`: whether the container of one
line of `docker ps` belongs to the selected image. -/
def belongsDecision (cfg : Config) (imgCfg : ImageConfig) (name image : String)
    (labelMap : StringMap) : Bool :=
  let belongs := false
  let belongs :=
    match cfg.ContainerImages name with
    | some imgNameFromCfg => if imgNameFromCfg = cfg.SelectedImage then true else belongs
    | none => belongs
  let belongs :=
    if !belongs then
      if labelMap.index "com.dv.owner" = "dv"
          ∧ labelMap.index "com.dv.image-name" = cfg.SelectedImage then true
      else belongs
    else belongs
  let belongs :=
    if !belongs then
      if image = imgCfg.Tag then true else belongs
    else belongs
  belongs

/-- The name, image and labels fields of one line (lines 82 to 90), when the
line has at least two fields. -/
def lineFields (line : String) : Option (String × String × String) :=
  let parts := splitN '\t' 3 line.data
  if parts.length < 2 then none
  else
    let name := String.mk (parts.getD 0 [])
    let image := String.mk (parts.getD 1 [])
    let labelsField := if parts.length ≥ 3 then String.mk (parts.getD 2 []) else ""
    some (name, image, labelsField)

/-- The test `strings.HasPrefix(s, p)`. -/
def startsWith (s p : String) : Bool :=
  p.data.isPrefixOf s.data

/-- The body of the loop of `completeAgentNames` (lines 79 to 110) on one
line. -/
def suggestLine (ops : TextOps) (cfg : Config) (imgCfg : ImageConfig) (pfx : String)
    (suggestions : List String) (line : String) : List String :=
  if ops.trimSpace line = "" then suggestions
  else
    match lineFields line with
    | none => suggestions
    | some (name, image, labelsField) =>
      let belongs := belongsDecision cfg imgCfg name image (ops.parseLabels labelsField)
      if !belongs then suggestions
      else if pfx = "" || startsWith (ops.toLower name) pfx then suggestions ++ [name]
      else suggestions

/-- The function `completeAgentNames` on a loaded configuration and the
output of `docker ps`: the suggested names. -/
def completeAgentNames (ops : TextOps) (cfg : Config) (out : String) (toComplete : String) :
    List String :=
  match resolveImage cfg "" with
  | (_, _, some _) => []
  | (_, imgCfg, none) =>
    let pfx := ops.toLower (ops.trimSpace toComplete)
    let lines := (splitAll '\n' (ops.trimSpace out).data).map String.mk
    lines.foldl (suggestLine ops cfg imgCfg pfx) []

/-- Modelled from the spec: package `dv/internal/docker`, which is not among
the embedded sources, as the capability surface of section 6 that `shared.go`
calls, over a runtime state `σ`. A primitive returns its error and the new
state. -/
structure Runtime (σ : Type) where
  Exists : σ → String → Bool
  Running : σ → String → Bool
  Start : σ → String → Option GoError × σ
  Stop : σ → String → Option GoError × σ
  Remove : σ → String → Option GoError × σ
  RunDetached : σ → String → String → String → Int → Int → List (String × String)
    → List (String × String) → Option GoError × σ

/-- A mutating call issued to the runtime, with its arguments. -/
inductive Call
  | stop (name : String)
  | remove (name : String)
  | start (name : String)
  | runDetached (name workdir imageTag : String) (hostPort containerPort : Int)
      (labels envs : List (String × String))
  deriving DecidableEq, Repr

/-- The result of an orchestration: the error returned, the runtime state
afterwards and the mutating calls issued, in order. -/
structure RunResult (σ : Type) where
  err : Option GoError
  state : σ
  calls : List Call

/-- A value of Go `int` after an arithmetic step: wrapped to 64 bits. -/
def wrapInt64 (x : Int) : Int :=
  (x + 2 ^ 63) % 2 ^ 64 - 2 ^ 63

/-- The values of Go `int`. -/
def isInt64 (x : Int) : Prop :=
  -(2 ^ 63) ≤ x ∧ x < 2 ^ 63

/-- The function `strconv.Itoa`. -/
def strconvItoa (n : Int) : String :=
  if n < 0 then "-" ++ Nat.repr n.natAbs else Nat.repr n.toNat

/-- The loop of lines 159 to 161, `for isPortInUse(chosenPort)` with the body
`chosenPort++`, where `isPortInUse` is read as a predicate on ports, run for
at most `fuel` probes: the first port found free, or nothing when the probes
run out. -/
def choosePort (inUse : Int → Bool) : Nat → Int → Option Int
  | 0, _ => none
  | fuel + 1, chosenPort =>
    if inUse chosenPort then choosePort inUse fuel (wrapInt64 (chosenPort + 1))
    else some chosenPort

/-- Lines 152 to 155 of `ensureContainerRunningWithWorkdir`: the forced
reset, whose two errors are discarded. -/
def resetPhase {σ : Type} (R : Runtime σ) (s : σ) (name : String) (reset : Bool) :
    σ × List Call :=
  if reset && R.Exists s name then
    let s1 := (R.Stop s name).2
    let s2 := (R.Remove s1 name).2
    (s2, [.stop name, .remove name])
  else (s, [])

/-- The function `ensureContainerRunningWithWorkdir`; the unused `cmd` is left
out. The result is `none` when the port search does not end within `fuel`
probes. -/
def ensureContainerRunningWithWorkdir {σ : Type} (R : Runtime σ) (inUse : Int → Bool)
    (fuel : Nat) (s : σ) (cfg : Config) (name workdir imageTag imgName : String)
    (reset : Bool) : Option (RunResult σ) :=
  let (s1, calls1) := resetPhase R s name reset
  if !R.Exists s1 name then
    match choosePort inUse fuel cfg.HostStartingPort with
    | none => none
    | some chosenPort =>
      let labels := [("com.dv.owner", "dv"), ("com.dv.image-name", imgName),
        ("com.dv.image-tag", imageTag)]
      let envs := [("DISCOURSE_PORT", strconvItoa chosenPort)]
      let call := Call.runDetached name workdir imageTag chosenPort cfg.ContainerPort labels envs
      match R.RunDetached s1 name workdir imageTag chosenPort cfg.ContainerPort labels envs with
      | (some err, s2) => some ⟨some err, s2, calls1 ++ [call]⟩
      | (none, s2) => some ⟨none, s2, calls1 ++ [call]⟩
  else if !R.Running s1 name then
    match R.Start s1 name with
    | (some err, s2) => some ⟨some err, s2, calls1 ++ [.start name]⟩
    | (none, s2) => some ⟨none, s2, calls1 ++ [.start name]⟩
  else some ⟨none, s1, calls1⟩

/-- The function `ensureContainerRunning`. -/
def ensureContainerRunning {σ : Type} (R : Runtime σ) (inUse : Int → Bool) (fuel : Nat) (s : σ)
    (cfg : Config) (name : String) (reset : Bool) : Option (RunResult σ) :=
  let imgName := cfg.ContainerImages.index name
  match resolveImage cfg imgName with
  | (_, _, some err) => some ⟨some err, s, []⟩
  | (_, imgCfg, none) =>
    let workdir := imgCfg.Workdir
    let imageTag := imgCfg.Tag
    ensureContainerRunningWithWorkdir R inUse fuel s cfg name workdir imageTag imgName reset

/-- The state of one container name. -/
inductive CState
  | Absent
  | Stopped
  | Running
  deriving DecidableEq, Repr

/-- The runtime state: the state of every container name. -/
abbrev Containers := String → CState

/-- The runtime state with one name changed. -/
def Containers.set (s : Containers) (name : String) (c : CState) : Containers :=
  fun n => if n = name then c else s n

/-- Modelled from the spec: the container runtime behind package
`dv/internal/docker`, which is not among the embedded sources, as the state
machine of section 4.5. A container is Absent, Stopped or Running; `start` brings an
existing container to Running, `stop` an existing one to Stopped (an already
stopped one stays so), `remove` an existing one to Absent and `run-detached`
an absent one to Running. The spec is silent on a primitive called on a name
in another state: here it fails and changes nothing. -/
def specRuntime : Runtime Containers where
  Exists s name := decide (s name ≠ CState.Absent)
  Running s name := decide (s name = CState.Running)
  Start s name :=
    if s name = CState.Absent then (some (.errorf ("no such container: " ++ name)), s)
    else (none, s.set name CState.Running)
  Stop s name :=
    if s name = CState.Absent then (some (.errorf ("no such container: " ++ name)), s)
    else (none, s.set name CState.Stopped)
  Remove s name :=
    if s name = CState.Absent then (some (.errorf ("no such container: " ++ name)), s)
    else (none, s.set name CState.Absent)
  RunDetached s name _ _ _ _ _ _ :=
    if s name = CState.Absent then (none, s.set name CState.Running)
    else (some (.errorf ("container name already in use: " ++ name)), s)

/-! ## Concrete states used in examples -/

/-- A filesystem holding only the directory `/cfg`, in which anything may be
created. -/
def fsCfgOnly : FS :=
  ⟨fun p => if p = "/cfg" then some Node.dir else none, fun _ => true, fun _ => none⟩

/-- A filesystem holding `/cfg` and a local override of the Dockerfile. -/
def fsWithLocal : FS :=
  ⟨fun p => if p = "/cfg" then some Node.dir
    else if p = "/cfg/Dockerfile.local" then some (Node.file "FROM scratch\n".data true true)
    else none, fun _ => true, fun _ => none⟩

/-- An environment with `DV_DOCKERFILE` pointing at a missing file. -/
def envMissing : String → Option String :=
  fun k => if k = "DV_DOCKERFILE" then some "/nowhere/Dockerfile" else none

/-- The empty environment. -/
def envEmpty : String → Option String :=
  fun _ => none

/-- Stand-ins for the text functions, enough for lines without blanks or
capitals: the identity for trimming and lowering, and no labels. -/
def plainOps : TextOps :=
  ⟨fun s => s, fun s => s, fun _ _ => none⟩

/-- A configuration with one image, selected, and no recorded container. -/
def cfgDiscourse : Config :=
  ⟨"", "ai_agent", "discourse",
    fun n => if n = "discourse" then some ⟨"ai_agent:latest", "/var/www/discourse"⟩ else none,
    fun _ => none, 4200, 4200⟩

/-- A runtime whose `remove` always fails and changes nothing, the other
primitives being those of `specRuntime`. -/
def stuckRuntime : Runtime Containers :=
  ⟨specRuntime.Exists, specRuntime.Running, specRuntime.Start, specRuntime.Stop,
    fun s name => (some (.errorf ("cannot remove container: " ++ name)), s),
    specRuntime.RunDetached⟩

/-- The runtime state in which `ai_agent` is running and nothing else exists. -/
def agentRunning : Containers :=
  fun n => if n = "ai_agent" then CState.Running else CState.Absent

/-- The runtime state without any container. -/
def noContainers : Containers :=
  fun _ => CState.Absent

/-- A port predicate: every port is free. -/
def allFree : Int → Bool :=
  fun _ => false

/-- A port predicate: only port 3000 is in use. -/
def busy3000 : Int → Bool :=
  fun x => decide (x = 3000)

/-- A runtime whose `run-detached` always fails and changes nothing, the other
primitives being those of `specRuntime`. -/
def noImageRuntime : Runtime Containers :=
  ⟨specRuntime.Exists, specRuntime.Running, specRuntime.Start, specRuntime.Stop,
    specRuntime.Remove,
    fun s _ _ imageTag _ _ _ _ => (some (.errorf ("no such image: " ++ imageTag)), s)⟩

/-! ## Facts about `trimSpaceBytes` -/

theorem isSpaceByte_of_isHexDigit {c : Char} (h : isHexDigit c = true) : isSpaceByte c = false := by
  simp only [isHexDigit, List.contains, List.elem_eq_mem, decide_eq_true_eq] at h
  simp only [String.data, List.mem_cons, List.mem_singleton] at h
  simp only [List.not_mem_nil, or_false] at h
  rcases h with h | h | h | h | h | h | h | h | h | h | h | h | h | h | h | h <;> subst h <;> decide

theorem trimSpaceBytes_append_newline (d : List Char) (h : ∀ c ∈ d, isSpaceByte c = false) :
    trimSpaceBytes (d ++ ['\n']) = d := by
  cases d with
  | nil => decide
  | cons a t =>
    have ha : isSpaceByte a = false := h a (List.mem_cons_self _ _)
    have hlen : (a :: t ++ ['\n']).length = t.length + 1 + 1 := by simp
    have hstart : trimLoopStart (a :: t ++ ['\n']) (a :: t ++ ['\n']).length 0 = 0 := by
      rw [hlen]; simp [trimLoopStart, ha]
    have hlast : (a :: t ++ ['\n']).getD (0 + (t.length + 1)) ' ' = '\n' := by
      simp [List.getD_eq_getElem?_getD, List.getElem?_append_right]
    have hprev : isSpaceByte ((a :: t ++ ['\n']).getD (0 + t.length) ' ') = false := by
      have hlt : t.length < (a :: t).length := by simp
      have hget : (a :: t ++ ['\n']).getD (0 + t.length) ' ' = (a :: t)[t.length] := by
        rw [Nat.zero_add, List.getD_eq_getElem?_getD, List.getElem?_append_left hlt,
          List.getElem?_eq_getElem hlt]
        rfl
      rw [hget]
      exact h _ (List.getElem_mem hlt)
    unfold trimSpaceBytes
    simp only [hstart]
    rw [hlen]
    simp only [Nat.sub_zero, trimLoopEnd, hlast, hprev]
    simp [isSpaceByte]

/-! ## Facts about paths -/

theorem splitSlash_ne_nil (cs : List Char) : splitSlash cs ≠ [] := by
  cases cs with
  | nil => simp [splitSlash]
  | cons c cs =>
    unfold splitSlash
    split
    · simp
    · split <;> simp

theorem splitSlash_append_slash (a b : List Char) :
    splitSlash (a ++ '/' :: b) = splitSlash a ++ splitSlash b := by
  induction a with
  | nil => simp [splitSlash]
  | cons c a ih =>
    by_cases hc : c = '/'
    · simp [splitSlash, hc, ih]
    · have hstep : ∀ x : List Char, splitSlash (c :: x) =
          (match splitSlash x with
            | [] => [[c]]
            | h :: t => (c :: h) :: t) := by
        intro x; simp [splitSlash, hc]
      rw [List.cons_append, hstep, hstep, ih]
      cases hs : splitSlash a with
      | nil => exact absurd hs (splitSlash_ne_nil a)
      | cons h t => simp

theorem splitSlash_of_not_mem {n : List Char} (h : '/' ∉ n) : splitSlash n = [n] := by
  induction n with
  | nil => rfl
  | cons c n ih =>
    have hc : c ≠ '/' := fun e => h (by simp [e])
    have hn : '/' ∉ n := fun e => h (List.mem_cons_of_mem _ e)
    simp [splitSlash, hc, ih hn]

theorem pathComps_append_plain (a n : List Char) (hn : plainName n) :
    pathComps (a ++ '/' :: n) = pathComps a ++ [n] := by
  obtain ⟨h1, h2, h3, _⟩ := hn
  simp [pathComps, splitSlash_append_slash, splitSlash_of_not_mem h1, List.filter_append,
    List.filter_cons, h2, h3]

theorem pathComps_plain (n : List Char) (hn : plainName n) : pathComps n = [n] := by
  obtain ⟨h1, h2, h3, _⟩ := hn
  simp [pathComps, splitSlash_of_not_mem h1, List.filter_cons, h2, h3]

theorem cleanStep_plain (r : Bool) (st : List (List Char)) (n : List Char) (hn : plainName n) :
    cleanStep r st n = st ++ [n] := by
  simp [cleanStep, hn.2.2.2]

theorem joinSlash_concat (st : List (List Char)) (n : List Char) :
    joinSlash (st ++ [n]) = slashLead st ++ n := by
  induction st with
  | nil => simp [joinSlash, slashLead]
  | cons c t ih =>
    cases t with
    | nil => simp [joinSlash, slashLead]
    | cons d u =>
      have : joinSlash ((c :: d :: u) ++ [n]) = c ++ '/' :: joinSlash ((d :: u) ++ [n]) := by
        simp [joinSlash]
      rw [this, ih]
      simp [slashLead, joinSlash]

theorem isRooted_append {a : List Char} (b : List Char) (ha : a ≠ []) :
    isRooted (a ++ b) = isRooted a := by
  cases a with
  | nil => exact absurd rfl ha
  | cons c a => rfl

theorem string_data_ne_nil {d : String} (h : d ≠ "") : d.data ≠ [] := by
  intro e
  apply h
  apply String.ext
  simpa using e

theorem filepathJoin_plain (d n : String) (hn : plainName n.data) :
    filepathJoin d n = String.mk (joinLead d ++ n.data) := by
  have hn2 : n.data ≠ [] := hn.2.1
  by_cases hd : d = ""
  · have hne : n ≠ "" := by
      intro e; apply hn2; simp [e]
    have hr : isRooted n.data = false := by
      cases hdat : n.data with
      | nil => rfl
      | cons c t =>
        have : c ≠ '/' := fun e => hn.1 (by simp [hdat, e])
        simp [isRooted, this]
    simp [filepathJoin, hd, hne, filepathClean, cleanStack, pathComps_plain _ hn, hr,
      cleanStep_plain _ _ _ hn, renderPath, joinSlash, joinLead, hn2]
  · have hdd : d.data ≠ [] := string_data_ne_nil hd
    have hdata : (d ++ "/" ++ n).data = d.data ++ '/' :: n.data := by
      simp [String.data_append]
    have hroot : isRooted (d.data ++ '/' :: n.data) = isRooted d.data := isRooted_append _ hdd
    simp [filepathJoin, hd, filepathClean, hdata, cleanStack, pathComps_append_plain _ _ hn,
      hroot, List.foldl_append, cleanStep_plain _ _ _ hn, renderPath, joinSlash_concat, joinLead,
      hn2]

theorem filepathJoin_injective (d n m : String) (hn : plainName n.data) (hm : plainName m.data)
    (h : filepathJoin d n = filepathJoin d m) : n = m := by
  rw [filepathJoin_plain d n hn, filepathJoin_plain d m hm] at h
  have h2 : joinLead d ++ n.data = joinLead d ++ m.data := by
    injection h
  exact String.ext (List.append_cancel_left h2)

theorem not_mem_of_mem_splitSlash (cs x : List Char) (hx : x ∈ splitSlash cs) : '/' ∉ x := by
  induction cs generalizing x with
  | nil =>
    simp [splitSlash] at hx
    simp [hx]
  | cons c cs ih =>
    by_cases hc : c = '/'
    · simp only [splitSlash, hc, if_true, List.mem_cons] at hx
      rcases hx with hx | hx
      · simp [hx]
      · exact ih x hx
    · have hstep : splitSlash (c :: cs) =
          (match splitSlash cs with
            | [] => [[c]]
            | h :: t => (c :: h) :: t) := by
        simp [splitSlash, hc]
      rw [hstep] at hx
      cases hs : splitSlash cs with
      | nil => exact absurd hs (splitSlash_ne_nil cs)
      | cons h t =>
        rw [hs] at hx ih
        simp only [List.mem_cons] at hx
        rcases hx with hx | hx
        · subst hx
          have hh : '/' ∉ h := ih h (List.mem_cons_self _ _)
          intro hm
          rcases List.mem_cons.mp hm with e | e
          · exact hc e.symm
          · exact hh e
        · exact ih x (List.mem_cons_of_mem _ hx)

theorem keptComp_of_mem_pathComps (cs x : List Char) (hx : x ∈ pathComps cs) : keptComp x := by
  simp only [pathComps, List.mem_filter, Bool.and_eq_true, decide_eq_true_eq] at hx
  exact ⟨not_mem_of_mem_splitSlash cs x hx.1, hx.2.1, hx.2.2⟩

theorem mem_of_mem_dropLast {α : Type} (l : List α) (x : α) (h : x ∈ l.dropLast) : x ∈ l :=
  List.dropLast_subset l h

theorem mem_cleanStep (r : Bool) (st : List (List Char)) (c x : List Char)
    (hx : x ∈ cleanStep r st c) : x ∈ st ∨ x = c := by
  unfold cleanStep at hx
  split at hx
  · split at hx
    · split at hx
      · simpa using hx
      · exact Or.inl (mem_of_mem_dropLast _ _ hx)
    · split at hx
      · exact Or.inl hx
      · simpa using hx
  · simpa using hx

theorem mem_cleanFold (r : Bool) (cs st : List (List Char)) (x : List Char)
    (hx : x ∈ cs.foldl (cleanStep r) st) : x ∈ st ∨ x ∈ cs := by
  induction cs generalizing st with
  | nil => exact Or.inl hx
  | cons c cs ih =>
    rw [List.foldl_cons] at hx
    rcases ih _ hx with h | h
    · rcases mem_cleanStep r st c x h with h2 | h2
      · exact Or.inl h2
      · exact Or.inr (by simp [h2])
    · exact Or.inr (List.mem_cons_of_mem _ h)

theorem keptComp_of_mem_cleanStack (cs x : List Char) (hx : x ∈ cleanStack cs) : keptComp x := by
  rcases mem_cleanFold _ _ _ _ hx with h | h
  · simp at h
  · exact keptComp_of_mem_pathComps cs x h

theorem splitSlash_joinSlash (l : List (List Char)) (hl : l ≠ []) (h : ∀ x ∈ l, '/' ∉ x) :
    splitSlash (joinSlash l) = l := by
  induction l with
  | nil => exact absurd rfl hl
  | cons c t ih =>
    cases t with
    | nil => simpa [joinSlash] using splitSlash_of_not_mem (h c (List.mem_cons_self _ _))
    | cons d u =>
      have h1 : joinSlash (c :: d :: u) = c ++ '/' :: joinSlash (d :: u) := by simp [joinSlash]
      rw [h1, splitSlash_append_slash, splitSlash_of_not_mem (h c (List.mem_cons_self _ _)),
        ih (by simp) (fun x hx => h x (List.mem_cons_of_mem _ hx))]
      simp

theorem pathComps_renderPath (r : Bool) (l : List (List Char)) (hl : l ≠ [])
    (h : ∀ x ∈ l, keptComp x) : pathComps (renderPath r l) = l := by
  have hs : splitSlash (joinSlash l) = l := splitSlash_joinSlash l hl (fun x hx => (h x hx).1)
  have hf : l.filter (fun c => decide (c ≠ []) && decide (c ≠ ['.'])) = l := by
    rw [List.filter_eq_self]
    intro x hx
    simp [(h x hx).2.1, (h x hx).2.2]
  cases r with
  | false => simp only [pathComps, renderPath, Bool.false_eq_true, if_false, List.nil_append, hs, hf]
  | true =>
    have h2 : splitSlash ('/' :: joinSlash l) = [] :: l := by simp [splitSlash, hs]
    simp only [pathComps, renderPath, if_true, List.singleton_append, h2]
    rw [List.filter_cons, hf]
    simp

theorem cleanFold_concat_ne (r : Bool) (n : List Char) (hn : plainName n) :
    ∀ (k : Nat) (st : List (List Char)), st.length ≤ k → st ≠ st.foldl (cleanStep r) [] ++ [n] := by
  intro k
  induction k with
  | zero =>
    intro st hk e
    have : st = [] := List.length_eq_zero.mp (Nat.le_zero.mp hk)
    rw [this] at e
    simp at e
  | succ k ih =>
    intro st hk e
    have hlen : (st.foldl (cleanStep r) []).length + 1 = st.length := by
      have := congrArg List.length e
      simp at this
      omega
    have e2 : st.foldl (cleanStep r) [] =
        (st.foldl (cleanStep r) []).foldl (cleanStep r) [] ++ [n] := by
      conv_lhs => rw [e]
      rw [List.foldl_append]
      simp [cleanStep_plain _ _ _ hn]
    exact ih _ (by omega) e2

theorem filepathJoin_ne_dir (d n : String) (hn : plainName n.data) : filepathJoin d n ≠ d := by
  intro h
  rw [filepathJoin_plain d n hn] at h
  have hdata : d.data = joinLead d ++ n.data := (congrArg String.data h).symm
  by_cases hd : d = ""
  · have : d.data = [] := by simp [hd]
    rw [this] at hdata
    simp [joinLead, hd] at hdata
    exact hn.2.1 hdata
  · have hrender : d.data = renderPath (isRooted d.data) (cleanStack d.data ++ [n.data]) := by
      conv_lhs => rw [hdata]
      simp [joinLead, hd, renderPath, joinSlash_concat]
    have hkept : ∀ x ∈ cleanStack d.data ++ [n.data], keptComp x := by
      intro x hx
      rcases List.mem_append.mp hx with hx | hx
      · exact keptComp_of_mem_cleanStack _ _ hx
      · simp only [List.mem_singleton] at hx
        subst hx
        exact ⟨hn.1, hn.2.1, hn.2.2.1⟩
    have hcomps : pathComps d.data = cleanStack d.data ++ [n.data] :=
      (congrArg pathComps hrender).trans (pathComps_renderPath _ _ (by simp) hkept)
    have hfix : cleanStack d.data =
        (cleanStack d.data).foldl (cleanStep (isRooted d.data)) [] ++ [n.data] := by
      have : cleanStack d.data = (pathComps d.data).foldl (cleanStep (isRooted d.data)) [] := rfl
      conv_lhs => rw [this, hcomps]
      rw [List.foldl_append]
      simp [cleanStep_plain _ _ _ hn]
    exact cleanFold_concat_ne _ _ hn _ _ (Nat.le_refl _) hfix

theorem envVarName_fileName (kind : AssetKind) : envVarName kind.fileName = kind.envVar := by
  cases kind <;> decide

theorem plainName_fileName (kind : AssetKind) : plainName kind.fileName.data := by
  cases kind <;> decide

theorem plainName_local (kind : AssetKind) : plainName (kind.fileName ++ ".local").data := by
  cases kind <;> decide

theorem plainName_sha (kind : AssetKind) : plainName (kind.fileName ++ ".sha256").data := by
  cases kind <;> decide

/-- C1: when the environment variable of an asset kind is set to a non-empty
path that does not exist or is a directory, the resolver returns the error
naming the variable and the path, empty paths and `usedOverride = false`,
performs no mutation and leaves the filesystem as it was, whatever the
configuration directory holds. -/
theorem resolve_env_override_missing (kind : AssetKind) (env : String → Option String) (fs : FS)
    (configDir : String) (embeddedContent : List Char) (embeddedSHA envPath : String)
    (henv : env kind.envVar = some envPath) (hne : envPath ≠ "")
    (hbad : fs.node envPath = none ∨ fs.node envPath = some Node.dir) :
    (resolveDockerfileInternal env fs configDir kind.fileName embeddedContent embeddedSHA).ret
        = ⟨"", "", false,
            some (GoError.errorf (kind.envVar ++ " path does not exist: " ++ envPath))⟩
      ∧ (resolveDockerfileInternal env fs configDir kind.fileName embeddedContent embeddedSHA).fs
        = fs
      ∧ (resolveDockerfileInternal env fs configDir kind.fileName embeddedContent
          embeddedSHA).effects = [] := by
  unfold resolveDockerfileInternal
  simp only [envVarName_fileName, henv, hne, ne_eq, not_false_eq_true, if_true]
  rcases hbad with h | h <;> simp [osStat, h]

/-- C2: with the environment variable unset or empty and a non-directory at
the `.local` path, the resolver returns that path with the configuration
directory and `usedOverride = true`, performs no mutation and leaves the
filesystem as it was, whatever the embedded content, the digest and the
sidecar are. -/
theorem resolve_local_override (kind : AssetKind) (env : String → Option String) (fs : FS)
    (configDir : String) (embeddedContent : List Char) (embeddedSHA : String)
    (henv : env kind.envVar = none ∨ env kind.envVar = some "")
    (hlocal : ∃ n, fs.node (filepathJoin configDir (kind.fileName ++ ".local")) = some n
      ∧ n ≠ Node.dir) :
    (resolveDockerfileInternal env fs configDir kind.fileName embeddedContent embeddedSHA).ret
        = ⟨filepathJoin configDir (kind.fileName ++ ".local"), configDir, true, none⟩
      ∧ (resolveDockerfileInternal env fs configDir kind.fileName embeddedContent embeddedSHA).fs
        = fs
      ∧ (resolveDockerfileInternal env fs configDir kind.fileName embeddedContent
          embeddedSHA).effects = [] := by
  obtain ⟨n, hn, hnd⟩ := hlocal
  have hstat : osStat fs (filepathJoin configDir (kind.fileName ++ ".local"))
      = Except.ok ⟨false⟩ := by
    cases n with
    | dir => exact absurd rfl hnd
    | file c r w => simp [osStat, hn]
  unfold resolveDockerfileInternal
  rcases henv with h | h <;> simp [envVarName_fileName, h, hstat]

/-- The C1 theorem with `DV_DOCKERFILE` pointing at a missing file, while a
local override exists. -/
theorem resolve_env_override_missing_witness :
    (resolveDockerfileInternal envMissing fsWithLocal "/cfg" "Dockerfile" "FROM x\n".data
        "abc123").ret
      = ⟨"", "", false,
          some (GoError.errorf "DV_DOCKERFILE path does not exist: /nowhere/Dockerfile")⟩ :=
  (resolve_env_override_missing AssetKind.dockerfile envMissing fsWithLocal "/cfg"
    "FROM x\n".data "abc123" "/nowhere/Dockerfile" (by decide) (by decide)
    (Or.inl (by decide))).1

/-- The C2 theorem on a filesystem with a local override of the Dockerfile. -/
theorem resolve_local_override_witness :
    (resolveDockerfileInternal envEmpty fsWithLocal "/cfg" "Dockerfile" "FROM x\n".data
        "abc123").ret
      = ⟨"/cfg/Dockerfile.local", "/cfg", true, none⟩ :=
  (resolve_local_override AssetKind.dockerfile envEmpty fsWithLocal "/cfg"
    "FROM x\n".data "abc123" (Or.inl (by decide))
    ⟨Node.file "FROM scratch\n".data true true, by decide, by decide⟩).1

theorem fileName_ne_sha (kind : AssetKind) : kind.fileName ≠ kind.fileName ++ ".sha256" := by
  cases kind <;> decide

theorem local_ne_fileName (kind : AssetKind) : kind.fileName ++ ".local" ≠ kind.fileName := by
  cases kind <;> decide

theorem local_ne_sha (kind : AssetKind) :
    kind.fileName ++ ".local" ≠ kind.fileName ++ ".sha256" := by
  cases kind <;> decide

theorem target_ne_sha (kind : AssetKind) (d : String) :
    filepathJoin d kind.fileName ≠ filepathJoin d (kind.fileName ++ ".sha256") :=
  fun h => fileName_ne_sha kind
    (filepathJoin_injective d _ _ (plainName_fileName kind) (plainName_sha kind) h)

theorem local_ne_target (kind : AssetKind) (d : String) :
    filepathJoin d (kind.fileName ++ ".local") ≠ filepathJoin d kind.fileName :=
  fun h => local_ne_fileName kind
    (filepathJoin_injective d _ _ (plainName_local kind) (plainName_fileName kind) h)

theorem local_ne_shaPath (kind : AssetKind) (d : String) :
    filepathJoin d (kind.fileName ++ ".local") ≠ filepathJoin d (kind.fileName ++ ".sha256") :=
  fun h => local_ne_sha kind
    (filepathJoin_injective d _ _ (plainName_local kind) (plainName_sha kind) h)

theorem FS.set_node_self (fs : FS) (p : String) (n : Node) : (fs.set p n).node p = some n := by
  simp [FS.set]

theorem FS.set_node_of_ne (fs : FS) {p q : String} (n : Node) (h : q ≠ p) :
    (fs.set p n).node q = fs.node q := by
  simp [FS.set, h]

theorem mkdirParent_length (path parent : List Char) (h : mkdirParent path = some parent) :
    parent.length < path.length := by
  unfold mkdirParent at h
  simp only at h
  split at h
  · rename_i hlen
    simp only [Option.some.injEq] at h
    subst h
    have h1 := (List.dropWhile_sublist (l := path.reverse.dropWhile (fun c => decide (c = '/')))
      (fun c => decide (c ≠ '/'))).length_le
    have h2 := (List.dropWhile_sublist (l := path.reverse)
      (fun c => decide (c = '/'))).length_le
    simp only [List.length_reverse, List.length_drop] at *
    omega
  · exact absurd h (by simp)

/-- A depth above the length of the path is enough for the recursion of
`os.MkdirAll`: a greater one gives the same result. -/
theorem mkdirAllRec_depth :
    ∀ (depth : Nat) (fs : FS) (path : List Char), path.length < depth →
      mkdirAllRec (depth + 1) fs path = mkdirAllRec depth fs path := by
  intro depth
  induction depth with
  | zero => intro fs path h; omega
  | succ depth ih =>
    intro fs path hlen
    rw [mkdirAllRec, mkdirAllRec]
    cases hp : mkdirParent path with
    | none => rfl
    | some parent =>
      have := mkdirParent_length path parent hp
      simp only [ih fs parent (by omega)]

theorem keptOrDir_refl (fs : FS) (q : String) : keptOrDir fs fs q := Or.inl rfl

theorem mkdirAllRec_keptOrDir :
    ∀ (depth : Nat) (fs : FS) (path : List Char) (q : String),
      keptOrDir fs (mkdirAllRec depth fs path).2.1 q := by
  intro depth
  induction depth with
  | zero => intro fs path q; exact Or.inl rfl
  | succ depth ih =>
    intro fs path q
    unfold mkdirAllRec
    cases hn : fs.node (String.mk path) with
    | some n => cases n <;> exact Or.inl rfl
    | none =>
      simp only
      have hup : ∀ up : Option GoError × FS × Bool, keptOrDir fs up.2.1 q →
          (up.2.1.node (String.mk path) = none ∨ up.2.1.node (String.mk path) = some Node.dir) →
          keptOrDir fs
            (match up with
              | (some err, fs1, made) => (some err, fs1, made)
              | (none, fs1, made) =>
                if fs1.canCreate (String.mk path) then
                  (none, fs1.set (String.mk path) Node.dir, true)
                else (some (GoError.pathError "mkdir" (String.mk path) Errno.EACCES), fs1,
                  made)).2.1 q := by
        rintro ⟨e, fs1, made⟩ hk hp
        cases e with
        | some err => exact hk
        | none =>
          simp only
          split
          · by_cases hq : q = String.mk path
            · subst hq
              right
              exact ⟨hn, FS.set_node_self _ _ _⟩
            · unfold keptOrDir
              rw [FS.set_node_of_ne _ _ hq]
              exact hk
          · exact hk
      cases hp : mkdirParent path with
      | none =>
        exact hup (none, fs, false) (Or.inl rfl) (Or.inl hn)
      | some parent =>
        refine hup _ (ih fs parent q) ?_
        rcases ih fs parent (String.mk path) with h | ⟨_, h⟩
        · exact Or.inl (h.trans hn)
        · exact Or.inr h

theorem mkdirAllRec_ok :
    ∀ (depth : Nat) (fs : FS) (path : List Char),
      (mkdirAllRec (depth + 1) fs path).1 = none →
      (mkdirAllRec (depth + 1) fs path).2.1.node (String.mk path) = some Node.dir := by
  intro depth fs path
  unfold mkdirAllRec
  cases hn : fs.node (String.mk path) with
  | some n =>
    cases n with
    | dir => intro _; exact hn
    | file c r w => intro h; simp at h
  | none =>
    simp only
    generalize (match mkdirParent path with
      | some parent => mkdirAllRec depth fs parent
      | none => (none, fs, false)) = up
    obtain ⟨e, fs1, made⟩ := up
    cases e with
    | some err => intro h; simp at h
    | none =>
      simp only
      split
      · intro _; exact FS.set_node_self _ _ _
      · intro h; simp at h

theorem mkdirAllRec_unmade :
    ∀ (depth : Nat) (fs : FS) (path : List Char),
      (mkdirAllRec depth fs path).2.2 = false → (mkdirAllRec depth fs path).2.1 = fs := by
  intro depth
  induction depth with
  | zero => intro fs path _; rfl
  | succ depth ih =>
    intro fs path
    unfold mkdirAllRec
    cases hn : fs.node (String.mk path) with
    | some n => cases n <;> intro _ <;> rfl
    | none =>
      simp only
      cases hp : mkdirParent path with
      | none =>
        simp only
        split
        · intro h; simp at h
        · intro _; rfl
      | some parent =>
        simp only
        have := ih fs parent
        revert this
        generalize mkdirAllRec depth fs parent = up
        obtain ⟨e, fs1, made⟩ := up
        intro hih
        cases e with
        | some err => exact hih
        | none =>
          simp only
          split
          · intro h; simp at h
          · exact hih

/-- The directory step changes no path name longer than its argument, and
none of the same length but the argument itself. -/
theorem mkdirAllRec_frame :
    ∀ (depth : Nat) (fs : FS) (path : List Char) (q : String),
      (mkdirAllRec depth fs path).2.1.node q ≠ fs.node q →
      q.data.length < path.length ∨ q = String.mk path := by
  intro depth
  induction depth with
  | zero => intro fs path q h; exact absurd rfl h
  | succ depth ih =>
    intro fs path q
    unfold mkdirAllRec
    cases hn : fs.node (String.mk path) with
    | some n => cases n <;> intro h <;> exact absurd rfl h
    | none =>
      simp only
      have hup : ∀ up : Option GoError × FS × Bool,
          (up.2.1.node q ≠ fs.node q → q.data.length < path.length ∨ q = String.mk path) →
          (match up with
              | (some err, fs1, made) => (some err, fs1, made)
              | (none, fs1, made) =>
                if fs1.canCreate (String.mk path) then
                  (none, fs1.set (String.mk path) Node.dir, true)
                else (some (GoError.pathError "mkdir" (String.mk path) Errno.EACCES), fs1,
                  made)).2.1.node q ≠ fs.node q →
          q.data.length < path.length ∨ q = String.mk path := by
        rintro ⟨e, fs1, made⟩ hk
        cases e with
        | some err => exact hk
        | none =>
          simp only
          split
          · by_cases hq : q = String.mk path
            · intro _; exact Or.inr hq
            · rw [FS.set_node_of_ne _ _ hq]
              exact hk
          · exact hk
      cases hp : mkdirParent path with
      | none => exact hup (none, fs, false) (fun h => absurd rfl h)
      | some parent =>
        refine hup _ (fun h => ?_)
        have hlen := mkdirParent_length path parent hp
        rcases ih fs parent q h with h1 | h1
        · exact Or.inl (by omega)
        · left
          rw [h1]
          exact hlen

/-- What the resolver needs of `os.MkdirAll`: a failure, or a success after
which the path is a directory; either way every node is kept or is a new
directory, and the effect tells whether anything was created. -/
theorem osMkdirAll_spec (fs : FS) (p : String) :
    ∃ err fs1 eff, osMkdirAll fs p = (err, fs1, eff)
      ∧ (∀ q, keptOrDir fs fs1 q)
      ∧ (∀ q, fs1.node q ≠ fs.node q → q.data.length < p.data.length ∨ q = p)
      ∧ (eff = [] ∨ eff = [Effect.mkdir p])
      ∧ (err = none → p ≠ "" ∧ fs1.node p = some Node.dir) := by
  unfold osMkdirAll
  by_cases hp : p = ""
  · refine ⟨some (GoError.pathError "mkdir" p Errno.ENOENT), fs, [], by simp [hp],
      fun q => Or.inl rfl, fun q h => absurd rfl h, Or.inl rfl, ?_⟩
    intro h; simp at h
  · simp only [hp, if_false]
    refine ⟨_, _, _, rfl, fun q => mkdirAllRec_keptOrDir _ fs p.data q,
      fun q h => mkdirAllRec_frame _ fs p.data q h, ?_, ?_⟩
    · cases (mkdirAllRec (p.data.length + 1) fs p.data).2.2 <;> simp
    · intro h
      exact ⟨hp, mkdirAllRec_ok _ fs p.data h⟩

theorem osMkdirAll_of_dir (fs : FS) (p : String) (hp : p ≠ "")
    (hdir : fs.node p = some Node.dir) : osMkdirAll fs p = (none, fs, []) := by
  have h : fs.node (String.mk p.data) = some Node.dir := hdir
  simp [osMkdirAll, hp, mkdirAllRec, h]

/-- The three ways `os.WriteFile` ends: the open fails and nothing changes;
the write fails after the open and the file holds the bytes that got through;
the write goes through. -/
theorem osWriteFile_cases (fs : FS) (p : String) (d : List Char) :
    (∃ e, osWriteFile fs p d = (some e, fs, []))
      ∨ (∃ e r k, k < d.length
          ∧ osWriteFile fs p d
            = (some e, fs.set p (Node.file (d.take k) r true), [Effect.write p (d.take k)]))
      ∨ (∃ r, osWriteFile fs p d = (none, fs.set p (Node.file d r true), [Effect.write p d])
          ∧ (fs.node p = none → r = true)) := by
  have hwrite : ∀ r : Bool,
      (∃ e k, k < d.length ∧
        (let accepted : Nat :=
            match fs.writeLimit p with
            | some k => k
            | none => d.length
          if accepted < d.length then
            (some (GoError.pathError "write" p Errno.ENOSPC),
              fs.set p (Node.file (d.take accepted) r true), [Effect.write p (d.take accepted)])
          else (none, fs.set p (Node.file d r true), [Effect.write p d]))
          = (some e, fs.set p (Node.file (d.take k) r true), [Effect.write p (d.take k)]))
      ∨ (let accepted : Nat :=
            match fs.writeLimit p with
            | some k => k
            | none => d.length
          if accepted < d.length then
            (some (GoError.pathError "write" p Errno.ENOSPC),
              fs.set p (Node.file (d.take accepted) r true), [Effect.write p (d.take accepted)])
          else (none, fs.set p (Node.file d r true), [Effect.write p d]))
          = (none, fs.set p (Node.file d r true), [Effect.write p d]) := by
    intro r
    cases hl : fs.writeLimit p with
    | none => right; simp
    | some k =>
      by_cases hk : k < d.length
      · left; exact ⟨GoError.pathError "write" p Errno.ENOSPC, k, hk, by simp [hk]⟩
      · right; simp [hk]
  unfold osWriteFile
  cases hn : fs.node p with
  | none =>
    by_cases hc : fs.canCreate p = true
    · simp only [hc, if_true]
      rcases hwrite true with ⟨e, k, hk, h⟩ | h
      · exact Or.inr (Or.inl ⟨e, true, k, hk, h⟩)
      · exact Or.inr (Or.inr ⟨true, h, fun _ => rfl⟩)
    · exact Or.inl ⟨GoError.pathError "open" p Errno.EACCES, by simp [hc]⟩
  | some n =>
    cases n with
    | dir => exact Or.inl ⟨GoError.pathError "open" p Errno.EISDIR, rfl⟩
    | file c r w =>
      by_cases hw : w = true
      · simp only [hw, if_true]
        rcases hwrite r with ⟨e, k, hk, h⟩ | h
        · exact Or.inr (Or.inl ⟨e, r, k, hk, h⟩)
        · exact Or.inr (Or.inr ⟨r, h, fun h => by simp at h⟩)
      · exact Or.inl ⟨GoError.pathError "open" p Errno.EACCES, by simp [hw]⟩

/-- Without an environment override and without a local override the
resolver is the fallback to the embedded default. -/
theorem resolve_eq_materialize (kind : AssetKind) (env : String → Option String) (fs : FS)
    (configDir : String) (embeddedContent : List Char) (embeddedSHA : String)
    (henv : env kind.envVar = none ∨ env kind.envVar = some "")
    (hlocal : ∀ n, fs.node (filepathJoin configDir (kind.fileName ++ ".local")) = some n
      → n = Node.dir) :
    resolveDockerfileInternal env fs configDir kind.fileName embeddedContent embeddedSHA
      = materializeEmbedded fs configDir kind.fileName embeddedContent embeddedSHA := by
  have hstat : (match osStat fs (filepathJoin configDir (kind.fileName ++ ".local")) with
      | .ok info => !info.isDir
      | .error _ => false) = false := by
    cases hn : fs.node (filepathJoin configDir (kind.fileName ++ ".local")) with
    | none => simp [osStat, hn]
    | some n =>
      have := hlocal n hn
      subst this
      simp [osStat, hn]
  unfold resolveDockerfileInternal
  rcases henv with h | h <;> simp [envVarName_fileName, h, hstat]

/-- The fallback after a successful directory step, by what the sidecar is
then: absent or stale, the two writes follow. -/
theorem materialize_need (fs fs1 : FS) (eff1 : List Effect) (configDir fileName : String)
    (embeddedContent : List Char) (embeddedSHA : String)
    (hm : osMkdirAll fs configDir = (none, fs1, eff1))
    (hstale : fs1.node (filepathJoin configDir (fileName ++ ".sha256")) = none
      ∨ ∃ b w, fs1.node (filepathJoin configDir (fileName ++ ".sha256"))
            = some (Node.file b true w)
          ∧ String.mk (trimSpaceBytes b) ≠ embeddedSHA) :
    materializeEmbedded fs configDir fileName embeddedContent embeddedSHA
      = writeBoth fs1 eff1 configDir fileName embeddedContent embeddedSHA := by
  rcases hstale with hs | ⟨b, w, hs, hne⟩
  · simp only [materializeEmbedded, hm, osReadFile, hs, errorsIsNotExist, if_true]
    rfl
  · simp only [materializeEmbedded, hm, osReadFile, hs, if_true, hne, ne_eq,
      not_false_eq_true, decide_True]
    rfl

/-- The fallback after a successful directory step when the sidecar cannot be
read or holds the digest: nothing is written. -/
theorem materialize_no_need (fs fs1 : FS) (eff1 : List Effect) (configDir fileName : String)
    (embeddedContent : List Char) (embeddedSHA : String)
    (hm : osMkdirAll fs configDir = (none, fs1, eff1))
    (hfresh : fs1.node (filepathJoin configDir (fileName ++ ".sha256")) = some Node.dir
      ∨ (∃ b w, fs1.node (filepathJoin configDir (fileName ++ ".sha256"))
            = some (Node.file b false w))
      ∨ ∃ b w, fs1.node (filepathJoin configDir (fileName ++ ".sha256"))
            = some (Node.file b true w)
          ∧ String.mk (trimSpaceBytes b) = embeddedSHA) :
    ∃ r, materializeEmbedded fs configDir fileName embeddedContent embeddedSHA
        = ⟨r, fs1, eff1⟩
      ∧ (r.err = none → r = ⟨filepathJoin configDir fileName, configDir, false, none⟩
          ∧ ∃ b w, fs1.node (filepathJoin configDir (fileName ++ ".sha256"))
              = some (Node.file b true w)
            ∧ String.mk (trimSpaceBytes b) = embeddedSHA) := by
  rcases hfresh with hs | ⟨b, w, hs⟩ | ⟨b, w, hs, heq⟩
  · refine ⟨_, by simp only [materializeEmbedded, hm, osReadFile, hs, errorsIsNotExist]; rfl, ?_⟩
    intro h; simp at h
  · refine ⟨_, by simp only [materializeEmbedded, hm, osReadFile, hs, errorsIsNotExist]; rfl, ?_⟩
    intro h; simp at h
  · refine ⟨_, by
      simp only [materializeEmbedded, hm, osReadFile, hs, if_true, heq, ne_eq,
        not_true_eq_false, decide_False]; rfl, ?_⟩
    intro _
    exact ⟨rfl, b, w, hs, heq⟩

/-- The five ways the two writes end, each with the error it returns. -/
theorem writeBoth_cases (kind : AssetKind) (fs1 : FS) (eff1 : List Effect) (configDir : String)
    (embeddedContent : List Char) (embeddedSHA : String) :
    (∃ e, (osWriteFile fs1 (filepathJoin configDir kind.fileName) embeddedContent).1 = some e
        ∧ writeBoth fs1 eff1 configDir kind.fileName embeddedContent embeddedSHA
          = ⟨⟨"", "", false, some e⟩, fs1, eff1⟩)
    ∨ (∃ e r k, k < embeddedContent.length
        ∧ (osWriteFile fs1 (filepathJoin configDir kind.fileName) embeddedContent).1 = some e
        ∧ writeBoth fs1 eff1 configDir kind.fileName embeddedContent embeddedSHA
          = ⟨⟨"", "", false, some e⟩,
              fs1.set (filepathJoin configDir kind.fileName)
                (Node.file (embeddedContent.take k) r true),
              eff1 ++ [Effect.write (filepathJoin configDir kind.fileName)
                (embeddedContent.take k)]⟩)
    ∨ (∃ r1, (osWriteFile fs1 (filepathJoin configDir kind.fileName) embeddedContent).2.1
          = fs1.set (filepathJoin configDir kind.fileName) (Node.file embeddedContent r1 true)
        ∧ ((∃ e, (osWriteFile (fs1.set (filepathJoin configDir kind.fileName)
                  (Node.file embeddedContent r1 true))
                (filepathJoin configDir (kind.fileName ++ ".sha256"))
                (sidecarBytes embeddedSHA)).1 = some e
              ∧ writeBoth fs1 eff1 configDir kind.fileName embeddedContent embeddedSHA
                = ⟨⟨"", "", false, some e⟩,
                    fs1.set (filepathJoin configDir kind.fileName)
                      (Node.file embeddedContent r1 true),
                    eff1 ++ [Effect.write (filepathJoin configDir kind.fileName)
                      embeddedContent]⟩)
          ∨ (∃ e r2 k, k < (sidecarBytes embeddedSHA).length
              ∧ (osWriteFile (fs1.set (filepathJoin configDir kind.fileName)
                  (Node.file embeddedContent r1 true))
                (filepathJoin configDir (kind.fileName ++ ".sha256"))
                (sidecarBytes embeddedSHA)).1 = some e
              ∧ writeBoth fs1 eff1 configDir kind.fileName embeddedContent embeddedSHA
                = ⟨⟨"", "", false, some e⟩,
                    (fs1.set (filepathJoin configDir kind.fileName)
                      (Node.file embeddedContent r1 true)).set
                      (filepathJoin configDir (kind.fileName ++ ".sha256"))
                      (Node.file ((sidecarBytes embeddedSHA).take k) r2 true),
                    eff1 ++ [Effect.write (filepathJoin configDir kind.fileName)
                        embeddedContent,
                      Effect.write (filepathJoin configDir (kind.fileName ++ ".sha256"))
                        ((sidecarBytes embeddedSHA).take k)]⟩)
          ∨ (∃ r2, writeBoth fs1 eff1 configDir kind.fileName embeddedContent embeddedSHA
                = ⟨⟨filepathJoin configDir kind.fileName, configDir, false, none⟩,
                    (fs1.set (filepathJoin configDir kind.fileName)
                      (Node.file embeddedContent r1 true)).set
                      (filepathJoin configDir (kind.fileName ++ ".sha256"))
                      (Node.file (sidecarBytes embeddedSHA) r2 true),
                    eff1 ++ [Effect.write (filepathJoin configDir kind.fileName)
                        embeddedContent]
                      ++ [Effect.write (filepathJoin configDir (kind.fileName ++ ".sha256"))
                        (sidecarBytes embeddedSHA)]⟩
              ∧ (fs1.node (filepathJoin configDir (kind.fileName ++ ".sha256")) = none
                  → r2 = true)))) := by
  have hTS := target_ne_sha kind configDir
  rcases osWriteFile_cases fs1 (filepathJoin configDir kind.fileName) embeddedContent with
    ⟨e, hw1⟩ | ⟨e, r, k, hk, hw1⟩ | ⟨r1, hw1, _⟩
  · exact Or.inl ⟨e, by rw [hw1], by simp [writeBoth, hw1]⟩
  · exact Or.inr (Or.inl ⟨e, r, k, hk, by rw [hw1], by simp [writeBoth, hw1]⟩)
  · refine Or.inr (Or.inr ⟨r1, by rw [hw1], ?_⟩)
    rcases osWriteFile_cases (fs1.set (filepathJoin configDir kind.fileName)
        (Node.file embeddedContent r1 true))
        (filepathJoin configDir (kind.fileName ++ ".sha256")) (sidecarBytes embeddedSHA) with
      ⟨e, hw2⟩ | ⟨e, r2, k, hk, hw2⟩ | ⟨r2, hw2, hr2⟩
    · exact Or.inl ⟨e, by rw [hw2], by simp [writeBoth, hw1, hw2]⟩
    · exact Or.inr (Or.inl ⟨e, r2, k, hk, by rw [hw2], by simp [writeBoth, hw1, hw2]⟩)
    · refine Or.inr (Or.inr ⟨r2, by simp [writeBoth, hw1, hw2], ?_⟩)
      intro hs
      apply hr2
      rw [FS.set_node_of_ne _ _ (Ne.symm hTS), hs]

/-- The fallback on a stale sidecar, when it succeeds: both files are
written, the asset first. -/
theorem materialize_stale (kind : AssetKind) (fs : FS) (configDir : String)
    (embeddedContent : List Char) (embeddedSHA : String)
    (hstale : sidecarStale fs (filepathJoin configDir (kind.fileName ++ ".sha256")) embeddedSHA)
    (hok : (materializeEmbedded fs configDir kind.fileName embeddedContent embeddedSHA).ret.err
      = none) :
    ∃ fs1 eff1 r1 r2,
      osMkdirAll fs configDir = (none, fs1, eff1)
      ∧ materializeEmbedded fs configDir kind.fileName embeddedContent embeddedSHA
        = ⟨⟨filepathJoin configDir kind.fileName, configDir, false, none⟩,
            (fs1.set (filepathJoin configDir kind.fileName)
              (Node.file embeddedContent r1 true)).set
              (filepathJoin configDir (kind.fileName ++ ".sha256"))
              (Node.file (sidecarBytes embeddedSHA) r2 true),
            eff1 ++ [Effect.write (filepathJoin configDir kind.fileName) embeddedContent]
              ++ [Effect.write (filepathJoin configDir (kind.fileName ++ ".sha256"))
                    (sidecarBytes embeddedSHA)]⟩
      ∧ (fs.node (filepathJoin configDir (kind.fileName ++ ".sha256")) = none → r2 = true) := by
  obtain ⟨err, fs1, eff1, hm, hkept, _, _, _⟩ := osMkdirAll_spec fs configDir
  cases err with
  | some e => simp [materializeEmbedded, hm] at hok
  | none =>
    -- the sidecar after the directory step
    have hS : fs1.node (filepathJoin configDir (kind.fileName ++ ".sha256"))
          = fs.node (filepathJoin configDir (kind.fileName ++ ".sha256"))
        ∨ fs1.node (filepathJoin configDir (kind.fileName ++ ".sha256")) = some Node.dir := by
      rcases hkept (filepathJoin configDir (kind.fileName ++ ".sha256")) with h | ⟨_, h⟩
      · exact Or.inl h
      · exact Or.inr h
    rcases hS with hS | hS
    · have hneed : fs1.node (filepathJoin configDir (kind.fileName ++ ".sha256")) = none
          ∨ ∃ b w, fs1.node (filepathJoin configDir (kind.fileName ++ ".sha256"))
                = some (Node.file b true w)
              ∧ String.mk (trimSpaceBytes b) ≠ embeddedSHA := by
        rcases hstale with hs | ⟨b, r, w, hs, hne⟩
        · exact Or.inl (hS.trans hs)
        · cases r with
          | true => exact Or.inr ⟨b, w, hS.trans hs, hne⟩
          | false =>
            exfalso
            obtain ⟨r, hr, hr2⟩ := materialize_no_need fs fs1 eff1 configDir kind.fileName
              embeddedContent embeddedSHA hm (Or.inr (Or.inl ⟨b, w, hS.trans hs⟩))
            rw [hr] at hok
            obtain ⟨_, b2, w2, h2, _⟩ := hr2 hok
            rw [hS, hs] at h2
            simp at h2
      have hmat := materialize_need fs fs1 eff1 configDir kind.fileName embeddedContent
        embeddedSHA hm hneed
      rw [hmat] at hok ⊢
      rcases writeBoth_cases kind fs1 eff1 configDir embeddedContent embeddedSHA with
        ⟨e, _, h⟩ | ⟨e, r, k, _, _, h⟩ | ⟨r1, _, ⟨e, _, h⟩ | ⟨e, r2, k, _, _, h⟩ | ⟨r2, h, hr2⟩⟩
      · rw [h] at hok; simp at hok
      · rw [h] at hok; simp at hok
      · rw [h] at hok; simp at hok
      · rw [h] at hok; simp at hok
      · exact ⟨fs1, eff1, r1, r2, hm, h, fun hs => hr2 (hS.trans hs)⟩
    · exfalso
      obtain ⟨r, hr, hr2⟩ := materialize_no_need fs fs1 eff1 configDir kind.fileName
        embeddedContent embeddedSHA hm (Or.inl hS)
      rw [hr] at hok
      obtain ⟨_, b2, w2, h2, _⟩ := hr2 hok
      rw [hS] at h2
      simp at h2

/-- C4: without an environment override and without a local override, when
the sidecar is absent or its trimmed content differs from the embedded digest,
a successful call returns the target path with the configuration directory and
`usedOverride = false`, and leaves the target holding the embedded content
and the sidecar holding the embedded digest followed by one newline. -/
theorem resolve_rewrites_stale (kind : AssetKind) (env : String → Option String) (fs : FS)
    (configDir : String) (embeddedContent : List Char) (embeddedSHA : String)
    (henv : env kind.envVar = none ∨ env kind.envVar = some "")
    (hlocal : ∀ n, fs.node (filepathJoin configDir (kind.fileName ++ ".local")) = some n
      → n = Node.dir)
    (hstale : sidecarStale fs (filepathJoin configDir (kind.fileName ++ ".sha256")) embeddedSHA)
    (hok : (resolveDockerfileInternal env fs configDir kind.fileName embeddedContent
      embeddedSHA).ret.err = none) :
    (resolveDockerfileInternal env fs configDir kind.fileName embeddedContent embeddedSHA).ret
        = ⟨filepathJoin configDir kind.fileName, configDir, false, none⟩
      ∧ fileContent
          (resolveDockerfileInternal env fs configDir kind.fileName embeddedContent
            embeddedSHA).fs (filepathJoin configDir kind.fileName) = some embeddedContent
      ∧ fileContent
          (resolveDockerfileInternal env fs configDir kind.fileName embeddedContent
            embeddedSHA).fs (filepathJoin configDir (kind.fileName ++ ".sha256"))
          = some (embeddedSHA ++ "\n").data := by
  rw [resolve_eq_materialize kind env fs configDir embeddedContent embeddedSHA henv hlocal]
    at hok ⊢
  obtain ⟨fs1, eff1, r1, r2, _, hout, _⟩ :=
    materialize_stale kind fs configDir embeddedContent embeddedSHA hstale hok
  rw [hout]
  refine ⟨rfl, ?_, ?_⟩
  · simp [fileContent, FS.set, target_ne_sha kind configDir]
  · simp [fileContent, FS.set, sidecarBytes]

/-- The C4 theorem for the digest `abc123` and no sidecar: the sidecar
afterwards is the digest and a newline. -/
theorem resolve_rewrites_stale_witness :
    fileContent
      (resolveDockerfileInternal envEmpty fsCfgOnly "/cfg" "Dockerfile" "FROM x\n".data
        "abc123").fs "/cfg/Dockerfile.sha256" = some "abc123\n".data :=
  (resolve_rewrites_stale AssetKind.dockerfile envEmpty fsCfgOnly "/cfg" "FROM x\n".data
    "abc123" (Or.inl (by decide)) (by decide) (Or.inl (by decide)) (by decide)).2.2

theorem trim_sidecarBytes (embeddedSHA : String)
    (hhex : ∀ c ∈ embeddedSHA.data, isHexDigit c = true) :
    String.mk (trimSpaceBytes (sidecarBytes embeddedSHA)) = embeddedSHA := by
  have h : sidecarBytes embeddedSHA = embeddedSHA.data ++ ['\n'] := by
    simp [sidecarBytes, String.data_append]
  rw [h, trimSpaceBytes_append_newline _ (fun c hc => isSpaceByte_of_isHexDigit (hhex c hc))]

/-- The fallback on a filesystem whose sidecar is a readable file holding the
digest line: nothing is written. -/
theorem materialize_fresh (kind : AssetKind) (fs : FS) (configDir : String)
    (embeddedContent : List Char) (embeddedSHA : String) (w : Bool)
    (hd : configDir ≠ "") (hdir : fs.node configDir = some Node.dir)
    (hside : fs.node (filepathJoin configDir (kind.fileName ++ ".sha256"))
      = some (Node.file (sidecarBytes embeddedSHA) true w))
    (hhex : ∀ c ∈ embeddedSHA.data, isHexDigit c = true) :
    materializeEmbedded fs configDir kind.fileName embeddedContent embeddedSHA
      = ⟨⟨filepathJoin configDir kind.fileName, configDir, false, none⟩, fs, []⟩ := by
  simp [materializeEmbedded, osMkdirAll_of_dir fs configDir hd hdir, osReadFile, hside,
    trim_sidecarBytes embeddedSHA hhex]

/-- C3: with no environment override, no local override and no sidecar, a
first successful call writes the target with the embedded content and then
the sidecar with the digest line; a second call on the resulting filesystem
performs no mutation, leaves the filesystem as it is and returns the same
results. The digest line of a hex digest trims back to the digest. -/
theorem resolve_embedded_idempotent (kind : AssetKind) (env : String → Option String) (fs : FS)
    (configDir : String) (embeddedContent : List Char) (embeddedSHA : String)
    (henv : env kind.envVar = none ∨ env kind.envVar = some "")
    (hlocal : ∀ n, fs.node (filepathJoin configDir (kind.fileName ++ ".local")) = some n
      → n = Node.dir)
    (hnoside : fs.node (filepathJoin configDir (kind.fileName ++ ".sha256")) = none)
    (hhex : ∀ c ∈ embeddedSHA.data, isHexDigit c = true)
    (hok : (resolveDockerfileInternal env fs configDir kind.fileName embeddedContent
      embeddedSHA).ret.err = none) :
    (resolveDockerfileInternal env fs configDir kind.fileName embeddedContent embeddedSHA).ret
        = ⟨filepathJoin configDir kind.fileName, configDir, false, none⟩
      ∧ (∃ pre, (pre = [] ∨ pre = [Effect.mkdir configDir])
          ∧ (resolveDockerfileInternal env fs configDir kind.fileName embeddedContent
              embeddedSHA).effects
            = pre ++ [Effect.write (filepathJoin configDir kind.fileName) embeddedContent,
                Effect.write (filepathJoin configDir (kind.fileName ++ ".sha256"))
                  (embeddedSHA ++ "\n").data])
      ∧ fileContent
          (resolveDockerfileInternal env fs configDir kind.fileName embeddedContent
            embeddedSHA).fs (filepathJoin configDir kind.fileName) = some embeddedContent
      ∧ fileContent
          (resolveDockerfileInternal env fs configDir kind.fileName embeddedContent
            embeddedSHA).fs (filepathJoin configDir (kind.fileName ++ ".sha256"))
          = some (embeddedSHA ++ "\n").data
      ∧ (resolveDockerfileInternal env
            (resolveDockerfileInternal env fs configDir kind.fileName embeddedContent
              embeddedSHA).fs configDir kind.fileName embeddedContent embeddedSHA).ret
          = ⟨filepathJoin configDir kind.fileName, configDir, false, none⟩
      ∧ (resolveDockerfileInternal env
            (resolveDockerfileInternal env fs configDir kind.fileName embeddedContent
              embeddedSHA).fs configDir kind.fileName embeddedContent embeddedSHA).effects = []
      ∧ (resolveDockerfileInternal env
            (resolveDockerfileInternal env fs configDir kind.fileName embeddedContent
              embeddedSHA).fs configDir kind.fileName embeddedContent embeddedSHA).fs
          = (resolveDockerfileInternal env fs configDir kind.fileName embeddedContent
              embeddedSHA).fs
      ∧ String.mk (trimSpaceBytes (embeddedSHA ++ "\n").data) = embeddedSHA := by
  have hTd := filepathJoin_ne_dir configDir _ (plainName_fileName kind)
  have hSd := filepathJoin_ne_dir configDir _ (plainName_sha kind)
  have hTS := target_ne_sha kind configDir
  have hLT := local_ne_target kind configDir
  have hLS := local_ne_shaPath kind configDir
  rw [resolve_eq_materialize kind env fs configDir embeddedContent embeddedSHA henv hlocal]
    at hok ⊢
  obtain ⟨fs1, eff1, r1, r2, hm, hout, hr2⟩ :=
    materialize_stale kind fs configDir embeddedContent embeddedSHA (Or.inl hnoside) hok
  have hr2t : r2 = true := hr2 hnoside
  subst hr2t
  obtain ⟨err, fs1b, eff1b, hm2, hkept, _, hpre, hdone⟩ := osMkdirAll_spec fs configDir
  rw [hm2] at hm
  simp only [Prod.mk.injEq] at hm
  obtain ⟨herr, hfs, heq⟩ := hm
  subst herr hfs heq
  obtain ⟨hd, hdir⟩ := hdone rfl
  rw [hout]
  have hlocal2 : ∀ n,
      ((fs1b.set (filepathJoin configDir kind.fileName)
          (Node.file embeddedContent r1 true)).set
          (filepathJoin configDir (kind.fileName ++ ".sha256"))
          (Node.file (sidecarBytes embeddedSHA) true true)).node
        (filepathJoin configDir (kind.fileName ++ ".local")) = some n → n = Node.dir := by
    intro n hn
    rw [FS.set_node_of_ne _ _ hLS, FS.set_node_of_ne _ _ hLT] at hn
    rcases hkept (filepathJoin configDir (kind.fileName ++ ".local")) with h | ⟨_, h⟩
    · rw [h] at hn
      exact hlocal n hn
    · rw [h] at hn
      simp only [Option.some.injEq] at hn
      exact hn.symm
  have hdir2 :
      ((fs1b.set (filepathJoin configDir kind.fileName)
          (Node.file embeddedContent r1 true)).set
          (filepathJoin configDir (kind.fileName ++ ".sha256"))
          (Node.file (sidecarBytes embeddedSHA) true true)).node configDir
        = some Node.dir := by
    rw [FS.set_node_of_ne _ _ (Ne.symm hSd), FS.set_node_of_ne _ _ (Ne.symm hTd), hdir]
  have hsecond := materialize_fresh kind _ configDir embeddedContent embeddedSHA true hd hdir2
    (FS.set_node_self _ _ _) hhex
  rw [resolve_eq_materialize kind env _ configDir embeddedContent embeddedSHA henv hlocal2,
    hsecond]
  refine ⟨rfl, ⟨eff1b, hpre, ?_⟩, ?_, ?_, rfl, rfl, rfl, trim_sidecarBytes embeddedSHA hhex⟩
  · simp [sidecarBytes]
  · simp [fileContent, FS.set, hTS]
  · simp [fileContent, FS.set, sidecarBytes]

/-- The C3 theorem on a configuration directory without files: the second
call performs no mutation. -/
theorem resolve_embedded_idempotent_witness :
    (resolveDockerfileInternal envEmpty
        (resolveDockerfileInternal envEmpty fsCfgOnly "/cfg" "Dockerfile" "FROM x\n".data
          "abc123").fs "/cfg" "Dockerfile" "FROM x\n".data "abc123").effects = [] :=
  (resolve_embedded_idempotent AssetKind.dockerfile envEmpty fsCfgOnly "/cfg" "FROM x\n".data
    "abc123" (Or.inl (by decide)) (by decide) (by decide) (by decide) (by decide)).2.2.2.2.2.1

/-- The second of the four ways, on a filesystem whose disk fills up during
the write of the asset file: the error of that write is returned and the asset
file is left truncated. -/
theorem resolve_disk_full_example :
    (resolveDockerfileInternal envEmpty fsDiskFull "/cfg" "Dockerfile" "FROM x\n".data
        "abc123").ret
        = ⟨"", "", false, some (GoError.pathError "write" "/cfg/Dockerfile" Errno.ENOSPC)⟩
      ∧ fileContent
          (resolveDockerfileInternal envEmpty fsDiskFull "/cfg" "Dockerfile" "FROM x\n".data
            "abc123").fs "/cfg/Dockerfile" = some "FROM ".data
      ∧ (resolveDockerfileInternal envEmpty fsDiskFull "/cfg" "Dockerfile" "FROM x\n".data
          "abc123").effects = [Effect.write "/cfg/Dockerfile" "FROM ".data] := by
  decide

theorem belongsDecision_iff (cfg : Config) (imgCfg : ImageConfig) (name image : String)
    (labelMap : StringMap) :
    belongsDecision cfg imgCfg name image labelMap = true
      ↔ (cfg.ContainerImages name = some cfg.SelectedImage
        ∨ (labelMap.index "com.dv.owner" = "dv"
            ∧ labelMap.index "com.dv.image-name" = cfg.SelectedImage)
        ∨ image = imgCfg.Tag) := by
  unfold belongsDecision
  cases hm : cfg.ContainerImages name with
  | none =>
    by_cases hl : labelMap.index "com.dv.owner" = "dv"
        ∧ labelMap.index "com.dv.image-name" = cfg.SelectedImage
    · simp [hl]
    · by_cases ht : image = imgCfg.Tag
      · simp [hl, ht]
      · simp [hl, ht]
  | some v =>
    by_cases hv : v = cfg.SelectedImage
    · simp [hv]
    · by_cases hl : labelMap.index "com.dv.owner" = "dv"
          ∧ labelMap.index "com.dv.image-name" = cfg.SelectedImage
      · simp [hv, hl]
      · by_cases ht : image = imgCfg.Tag
        · simp [hv, hl, ht]
        · simp [hv, hl, ht]

theorem mem_suggestLine (ops : TextOps) (cfg : Config) (imgCfg : ImageConfig) (pfx : String)
    (suggestions : List String) (line n : String)
    (hn : n ∈ suggestLine ops cfg imgCfg pfx suggestions line) :
    n ∈ suggestions
      ∨ ∃ image labelsField, lineFields line = some (n, image, labelsField)
          ∧ belongsDecision cfg imgCfg n image (ops.parseLabels labelsField) = true := by
  unfold suggestLine at hn
  split at hn
  · exact Or.inl hn
  · split at hn
    · exact Or.inl hn
    · rename_i name image labelsField hf
      simp only at hn
      split at hn
      · exact Or.inl hn
      · rename_i hb
        split at hn
        · rcases List.mem_append.mp hn with h | h
          · exact Or.inl h
          · simp only [List.mem_singleton] at h
            subst h
            exact Or.inr ⟨image, labelsField, hf, by simpa using hb⟩
        · exact Or.inl hn

theorem mem_suggestFold (ops : TextOps) (cfg : Config) (imgCfg : ImageConfig) (pfx : String)
    (lines : List String) (suggestions : List String) (n : String)
    (hn : n ∈ lines.foldl (suggestLine ops cfg imgCfg pfx) suggestions) :
    n ∈ suggestions
      ∨ ∃ line ∈ lines, ∃ image labelsField, lineFields line = some (n, image, labelsField)
          ∧ belongsDecision cfg imgCfg n image (ops.parseLabels labelsField) = true := by
  induction lines generalizing suggestions with
  | nil => exact Or.inl hn
  | cons l ls ih =>
    rw [List.foldl_cons] at hn
    rcases ih _ hn with h | ⟨line, hl, rest⟩
    · rcases mem_suggestLine ops cfg imgCfg pfx suggestions l n h with h2 | h2
      · exact Or.inl h2
      · exact Or.inr ⟨l, List.mem_cons_self _ _, h2⟩
    · exact Or.inr ⟨line, List.mem_cons_of_mem _ hl, rest⟩

/-- C6: the membership decision of `completeAgentNames` is the three-way
disjunction of the recorded mapping, the ownership labels and the image tag;
and every suggested name is the name field of a line of the `docker ps`
output on which that decision, taken with the selected image, is true. -/
theorem completeAgentNames_membership (ops : TextOps) (cfg : Config) :
    (∀ (imgCfg : ImageConfig) (name image : String) (labelMap : StringMap),
      belongsDecision cfg imgCfg name image labelMap = true
        ↔ (cfg.ContainerImages name = some cfg.SelectedImage
          ∨ (labelMap.index "com.dv.owner" = "dv"
              ∧ labelMap.index "com.dv.image-name" = cfg.SelectedImage)
          ∨ image = imgCfg.Tag))
    ∧ ∀ (out toComplete n : String), n ∈ completeAgentNames ops cfg out toComplete →
        ∃ imgCfg, cfg.Images cfg.SelectedImage = some imgCfg
          ∧ ∃ line ∈ (splitAll '\n' (ops.trimSpace out).data).map String.mk,
              ∃ image labelsField, lineFields line = some (n, image, labelsField)
                ∧ (cfg.ContainerImages n = some cfg.SelectedImage
                  ∨ ((ops.parseLabels labelsField).index "com.dv.owner" = "dv"
                      ∧ (ops.parseLabels labelsField).index "com.dv.image-name"
                        = cfg.SelectedImage)
                  ∨ image = imgCfg.Tag) := by
  refine ⟨fun imgCfg name image labelMap => belongsDecision_iff cfg imgCfg name image labelMap,
    ?_⟩
  intro out toComplete n hn
  unfold completeAgentNames resolveImage at hn
  simp only [if_true] at hn
  cases himg : cfg.Images cfg.SelectedImage with
  | none => simp [himg] at hn
  | some imgCfg =>
    simp only [himg] at hn
    rcases mem_suggestFold ops cfg imgCfg _ _ [] n hn with h | ⟨line, hl, image, lf, hf, hb⟩
    · simp at h
    · exact ⟨imgCfg, rfl, line, hl, image, lf, hf, (belongsDecision_iff _ _ _ _ _).mp hb⟩

/-- The C6 theorem on two lines of output, of which the first has the tag of
the selected image. -/
theorem completeAgentNames_membership_witness :
    "ai_agent" ∈ completeAgentNames plainOps cfgDiscourse
        "ai_agent\tai_agent:latest\t\nother\tnginx:1\t" ""
      ∧ ∃ imgCfg, cfgDiscourse.Images cfgDiscourse.SelectedImage = some imgCfg
          ∧ ∃ line ∈ (splitAll '\n' (plainOps.trimSpace
                "ai_agent\tai_agent:latest\t\nother\tnginx:1\t").data).map String.mk,
              ∃ image labelsField, lineFields line = some ("ai_agent", image, labelsField)
                ∧ (cfgDiscourse.ContainerImages "ai_agent" = some cfgDiscourse.SelectedImage
                  ∨ ((plainOps.parseLabels labelsField).index "com.dv.owner" = "dv"
                      ∧ (plainOps.parseLabels labelsField).index "com.dv.image-name"
                        = cfgDiscourse.SelectedImage)
                  ∨ image = imgCfg.Tag) :=
  ⟨by decide, (completeAgentNames_membership plainOps cfgDiscourse).2
    "ai_agent\tai_agent:latest\t\nother\tnginx:1\t" "" "ai_agent" (by decide)⟩

/-! ## The lifecycle orchestrator -/

theorem wrapInt64_of_isInt64 {x : Int} (h : isInt64 x) : wrapInt64 x = x := by
  unfold isInt64 at h
  unfold wrapInt64
  omega

theorem choosePort_free (inUse : Int → Bool) (fuel : Nat) (s : Int) (h : inUse s = false) :
    choosePort inUse (fuel + 1) s = some s := by
  simp [choosePort, h]

theorem choosePort_busy (inUse : Int → Bool) (fuel : Nat) (s : Int) (h : inUse s = true)
    (hs : isInt64 (s + 1)) :
    choosePort inUse (fuel + 1) s = choosePort inUse fuel (s + 1) := by
  simp [choosePort, h, wrapInt64_of_isInt64 hs]

/-- The port search from `s` ends at the least free port at or above `s`,
when there is a free port `p` at or above `s`. -/
theorem choosePort_least (inUse : Int → Bool) :
    ∀ (n : Nat) (s p : Int), (p - s).toNat = n → -(2 ^ 63) ≤ s → s ≤ p → p < 2 ^ 63 →
      inUse p = false →
      ∃ q, s ≤ q ∧ q ≤ p ∧ inUse q = false ∧ (∀ r, s ≤ r → r < q → inUse r = true)
        ∧ ∀ fuel, (q - s).toNat + 1 ≤ fuel → choosePort inUse fuel s = some q := by
  intro n
  induction n with
  | zero =>
    intro s p hn hlo hsp hhi hfree
    have hps : p = s := by omega
    subst hps
    refine ⟨p, le_refl _, le_refl _, hfree, fun r h1 h2 => by omega, ?_⟩
    intro fuel hfuel
    obtain ⟨k, rfl⟩ : ∃ k, fuel = k + 1 := ⟨fuel - 1, by omega⟩
    exact choosePort_free inUse k p hfree
  | succ n ih =>
    intro s p hn hlo hsp hhi hfree
    cases hs : inUse s with
    | false =>
      refine ⟨s, le_refl _, hsp, hs, fun r h1 h2 => by omega, ?_⟩
      intro fuel hfuel
      obtain ⟨k, rfl⟩ : ∃ k, fuel = k + 1 := ⟨fuel - 1, by omega⟩
      exact choosePort_free inUse k s hs
    | true =>
      have hne : s ≠ p := by
        intro e; rw [e, hfree] at hs; exact Bool.noConfusion hs
      have hlt : s + 1 ≤ p := by omega
      obtain ⟨q, hq1, hq2, hq3, hq4, hq5⟩ :=
        ih (s + 1) p (by omega) (by omega) hlt hhi hfree
      refine ⟨q, by omega, hq2, hq3, ?_, ?_⟩
      · intro r h1 h2
        by_cases hr : r = s
        · rw [hr]; exact hs
        · exact hq4 r (by omega) h2
      · intro fuel hfuel
        obtain ⟨k, rfl⟩ : ∃ k, fuel = k + 1 := ⟨fuel - 1, by omega⟩
        rw [choosePort_busy inUse k s hs ⟨by omega, by omega⟩]
        exact hq5 k (by omega)

/-- C9: when some port at or above the starting port is free, the port search
of `ensureContainerRunningWithWorkdir` ends, with enough probes, at the least
free port at or above the starting port: every port from the start up to it
is in use and it is not. When the container does not exist after the reset
step, that port is the host port of the `RunDetached` call, the last call
issued, and its decimal text is the value of the `DISCOURSE_PORT` entry. -/
theorem ensure_chooses_least_free_port {σ : Type} (R : Runtime σ) (inUse : Int → Bool) (s : σ)
    (cfg : Config) (name workdir imageTag imgName : String) (reset : Bool) (p : Int)
    (hstart : isInt64 cfg.HostStartingPort) (hle : cfg.HostStartingPort ≤ p)
    (hp : p < 2 ^ 63) (hfree : inUse p = false) :
    ∃ q, cfg.HostStartingPort ≤ q ∧ q ≤ p ∧ inUse q = false
      ∧ (∀ r, cfg.HostStartingPort ≤ r → r < q → inUse r = true)
      ∧ ∀ fuel, (q - cfg.HostStartingPort).toNat + 1 ≤ fuel →
          choosePort inUse fuel cfg.HostStartingPort = some q
          ∧ (R.Exists (resetPhase R s name reset).1 name = false →
              ∃ res, ensureContainerRunningWithWorkdir R inUse fuel s cfg name workdir imageTag
                  imgName reset = some res
                ∧ res.calls = (resetPhase R s name reset).2
                    ++ [Call.runDetached name workdir imageTag q cfg.ContainerPort
                        [("com.dv.owner", "dv"), ("com.dv.image-name", imgName),
                          ("com.dv.image-tag", imageTag)]
                        [("DISCOURSE_PORT", strconvItoa q)]]) := by
  obtain ⟨q, h1, h2, h3, h4, h5⟩ :=
    choosePort_least inUse _ cfg.HostStartingPort p rfl hstart.1 hle hp hfree
  refine ⟨q, h1, h2, h3, h4, fun fuel hfuel => ⟨h5 fuel hfuel, fun hex => ?_⟩⟩
  unfold ensureContainerRunningWithWorkdir
  simp only [hex, h5 fuel hfuel, Bool.not_false, if_true]
  split <;> exact ⟨_, rfl, rfl⟩

/-- The C9 theorem with port 3000 in use and port 3001 free: the search from
3000 ends at 3001. -/
theorem ensure_chooses_least_free_port_witness :
    (choosePort busy3000 2 3000 = some 3001 ∧ strconvItoa 3001 = "3001")
      ∧ ∃ q, (3000 : Int) ≤ q ∧ q ≤ 3001 ∧ busy3000 q = false
        ∧ (∀ r, (3000 : Int) ≤ r → r < q → busy3000 r = true)
        ∧ ∀ fuel, (q - 3000).toNat + 1 ≤ fuel →
            choosePort busy3000 fuel 3000 = some q
            ∧ (specRuntime.Exists (resetPhase specRuntime noContainers "ai_agent" false).1
                  "ai_agent" = false →
                ∃ res, ensureContainerRunningWithWorkdir specRuntime busy3000 fuel noContainers
                    ⟨"", "ai_agent", "discourse", fun _ => none, fun _ => none, 3000, 4200⟩
                    "ai_agent" "/var/www/discourse" "ai_agent:latest" "discourse" false
                    = some res
                  ∧ res.calls = (resetPhase specRuntime noContainers "ai_agent" false).2
                      ++ [Call.runDetached "ai_agent" "/var/www/discourse" "ai_agent:latest" q
                          4200
                          [("com.dv.owner", "dv"), ("com.dv.image-name", "discourse"),
                            ("com.dv.image-tag", "ai_agent:latest")]
                          [("DISCOURSE_PORT", strconvItoa q)]]) :=
  ⟨by decide, ensure_chooses_least_free_port specRuntime busy3000 noContainers
    ⟨"", "ai_agent", "discourse", fun _ => none, fun _ => none, 3000, 4200⟩
    "ai_agent" "/var/www/discourse" "ai_agent:latest" "discourse" false 3001
    (by unfold isInt64; decide) (by decide) (by decide) (by decide)⟩

/-- C8, as amended: an error of `RunDetached` or of `Start`, when the function
invokes them, is returned exactly; the errors of `Stop` and `Remove` in the
reset step are discarded, the function going on from the state that `Remove`
left; and the function returns no other error than that of `RunDetached` or
of `Start`. -/
theorem ensure_returns_primitive_error {σ : Type} (R : Runtime σ) (inUse : Int → Bool)
    (fuel : Nat) (s : σ) (cfg : Config) (name workdir imageTag imgName : String)
    (reset : Bool) :
    (∀ q e, R.Exists (resetPhase R s name reset).1 name = false →
        choosePort inUse fuel cfg.HostStartingPort = some q →
        (R.RunDetached (resetPhase R s name reset).1 name workdir imageTag q cfg.ContainerPort
            [("com.dv.owner", "dv"), ("com.dv.image-name", imgName),
              ("com.dv.image-tag", imageTag)]
            [("DISCOURSE_PORT", strconvItoa q)]).1 = some e →
        (ensureContainerRunningWithWorkdir R inUse fuel s cfg name workdir imageTag imgName
            reset).map (fun res => res.err) = some (some e))
    ∧ (∀ e, R.Exists (resetPhase R s name reset).1 name = true →
        R.Running (resetPhase R s name reset).1 name = false →
        (R.Start (resetPhase R s name reset).1 name).1 = some e →
        (ensureContainerRunningWithWorkdir R inUse fuel s cfg name workdir imageTag imgName
            reset).map (fun res => res.err) = some (some e))
    ∧ (reset = true → R.Exists s name = true →
        resetPhase R s name reset
          = ((R.Remove (R.Stop s name).2 name).2, [Call.stop name, Call.remove name]))
    ∧ (∀ res, ensureContainerRunningWithWorkdir R inUse fuel s cfg name workdir imageTag
          imgName reset = some res →
        res.err = none
          ∨ (∃ q, res.err = (R.RunDetached (resetPhase R s name reset).1 name workdir imageTag q
                cfg.ContainerPort
                [("com.dv.owner", "dv"), ("com.dv.image-name", imgName),
                  ("com.dv.image-tag", imageTag)]
                [("DISCOURSE_PORT", strconvItoa q)]).1)
          ∨ res.err = (R.Start (resetPhase R s name reset).1 name).1) := by
  refine ⟨?_, ?_, ?_, ?_⟩
  · intro q e hex hq he
    unfold ensureContainerRunningWithWorkdir
    simp only [hex, hq, Bool.not_false, if_true]
    split
    · rename_i err s2 heq
      rw [heq] at he
      simp at he
      simp [he]
    · rename_i s2 heq
      rw [heq] at he
      simp at he
  · intro e hex hrun he
    unfold ensureContainerRunningWithWorkdir
    simp only [hex, hrun, Bool.not_true, Bool.not_false, if_true, Bool.false_eq_true, if_false]
    split
    · rename_i err s2 heq
      rw [heq] at he
      simp at he
      simp [he]
    · rename_i s2 heq
      rw [heq] at he
      simp at he
  · intro hr hex
    simp [resetPhase, hr, hex]
  · intro res hres
    unfold ensureContainerRunningWithWorkdir at hres
    simp only at hres
    split at hres
    · split at hres
      · simp at hres
      · rename_i q hq
        split at hres
        · rename_i err s2 heq
          simp only [Option.some.injEq] at hres
          subst hres
          exact Or.inr (Or.inl ⟨q, by simp [heq]⟩)
        · simp only [Option.some.injEq] at hres
          subst hres
          exact Or.inl rfl
    · split at hres
      · split at hres
        · rename_i err s2 heq
          simp only [Option.some.injEq] at hres
          subst hres
          exact Or.inr (Or.inr (by simp [heq]))
        · simp only [Option.some.injEq] at hres
          subst hres
          exact Or.inl rfl
      · simp only [Option.some.injEq] at hres
        subst hres
        exact Or.inl rfl

/-- The C8 theorem on a runtime whose `run-detached` fails: the error comes
back as it is. -/
theorem ensure_returns_primitive_error_witness :
    (ensureContainerRunningWithWorkdir noImageRuntime allFree 1 noContainers cfgDiscourse
        "ai_agent" "/var/www/discourse" "ai_agent:latest" "discourse" false).map
      (fun res => res.err) = some (some (GoError.errorf "no such image: ai_agent:latest")) :=
  (ensure_returns_primitive_error noImageRuntime allFree 1 noContainers cfgDiscourse "ai_agent"
    "/var/www/discourse" "ai_agent:latest" "discourse" false).1 4200
    (GoError.errorf "no such image: ai_agent:latest") (by decide) (by decide) (by decide)

/-- C8, refuted as stated: with `reset = true` on a running container whose
removal fails, the error of `Remove` is not returned; the function goes on to
`Start` and returns nil. -/
theorem ensure_discards_remove_error :
    (stuckRuntime.Remove (stuckRuntime.Stop agentRunning "ai_agent").2 "ai_agent").1
        = some (GoError.errorf "cannot remove container: ai_agent")
      ∧ (ensureContainerRunningWithWorkdir stuckRuntime allFree 1 agentRunning cfgDiscourse
          "ai_agent" "/var/www/discourse" "ai_agent:latest" "discourse" true).map
          (fun res => (res.err, res.calls))
        = some (none, [Call.stop "ai_agent", Call.remove "ai_agent", Call.start "ai_agent"]) := by
  decide

/-- C10, evaluated where it fails: for a container name without a recorded
image, `resolveImage` resolves the selected image `discourse`, and the
container is created with the owner label, the tag of that image, and an empty
`com.dv.image-name` label. -/
theorem ensureContainerRunning_label_of_fallback :
    cfgDiscourse.ContainerImages "ai_agent" = none
      ∧ resolveImage cfgDiscourse (cfgDiscourse.ContainerImages.index "ai_agent")
        = ("discourse", ⟨"ai_agent:latest", "/var/www/discourse"⟩, none)
      ∧ (ensureContainerRunning specRuntime allFree 1 noContainers cfgDiscourse "ai_agent"
          false).map (fun res => (res.err, res.calls))
        = some (none, [Call.runDetached "ai_agent" "/var/www/discourse" "ai_agent:latest" 4200
            4200
            [("com.dv.owner", "dv"), ("com.dv.image-name", ""),
              ("com.dv.image-tag", "ai_agent:latest")]
            [("DISCOURSE_PORT", "4200")]]) := by
  decide

end Dv
